import Mathlib

/-! http_stress: session lifecycle, metrics counters and URL split

A shallow embedding of `src/main.cpp`.

* The six global `std::atomic_uint32_t` counters are natural numbers that are
  reduced modulo `2 ^ 32` at every increment and decrement.
* A session coroutine (`do_session`, `do_ssl_session`) is a function from the
  outcomes of its suspension points (timer waits and transport operations) to
  the sequence of events it performs, in program order, destructors included.
* A run is an interleaving of the events of the spawned sessions and of the
  polls of the reporter coroutine, chosen by an arbitrary schedule.
* The URL split of `main` is a function on lists of characters.
-/

namespace HttpStress

/-! ## Error codes -/

/-- The values of `beast::error_code` the program distinguishes: no error, the
three codes it compares against, and every other error. -/
inductive ErrorCode
  | success
  | eof
  | not_connected
  | operation_aborted
  | other (code : Nat)
  deriving DecidableEq

/-! ## Counters -/

/-- The six global counters of `main.cpp`, lines 41-46. -/
inductive Counter
  | active_sessions
  | connected_sessions
  | success_sessions
  | failed_sessions
  | success_requests
  | failed_requests
  deriving DecidableEq

/-- Values of the six `std::atomic_uint32_t` globals. -/
structure Counters where
  active_sessions : Nat
  connected_sessions : Nat
  success_sessions : Nat
  failed_sessions : Nat
  success_requests : Nat
  failed_requests : Nat
  deriving DecidableEq

/-- All counters are zero-initialised (`{0}`). -/
def Counters.zero : Counters := ⟨0, 0, 0, 0, 0, 0⟩

/-- Pre-increment of a `uint32_t`: wraps at `2 ^ 32`. -/
def incr32 (x : Nat) : Nat := (x + 1) % 4294967296

/-- Pre-decrement of a `uint32_t`: wraps at `2 ^ 32`. -/
def decr32 (x : Nat) : Nat := (x + 4294967295) % 4294967296

/-- Read one counter (`load()`). -/
def Counters.get (c : Counters) : Counter → Nat
  | .active_sessions => c.active_sessions
  | .connected_sessions => c.connected_sessions
  | .success_sessions => c.success_sessions
  | .failed_sessions => c.failed_sessions
  | .success_requests => c.success_requests
  | .failed_requests => c.failed_requests

/-- Apply `f` to one counter and leave the other five alone. -/
def Counters.modify (c : Counters) (f : Nat → Nat) : Counter → Counters
  | .active_sessions => ⟨f c.active_sessions, c.connected_sessions, c.success_sessions,
      c.failed_sessions, c.success_requests, c.failed_requests⟩
  | .connected_sessions => ⟨c.active_sessions, f c.connected_sessions, c.success_sessions,
      c.failed_sessions, c.success_requests, c.failed_requests⟩
  | .success_sessions => ⟨c.active_sessions, c.connected_sessions, f c.success_sessions,
      c.failed_sessions, c.success_requests, c.failed_requests⟩
  | .failed_sessions => ⟨c.active_sessions, c.connected_sessions, c.success_sessions,
      f c.failed_sessions, c.success_requests, c.failed_requests⟩
  | .success_requests => ⟨c.active_sessions, c.connected_sessions, c.success_sessions,
      c.failed_sessions, f c.success_requests, c.failed_requests⟩
  | .failed_requests => ⟨c.active_sessions, c.connected_sessions, c.success_sessions,
      c.failed_sessions, c.success_requests, f c.failed_requests⟩

/-- Every counter holds a `uint32_t` value. -/
def Counters.InRange (c : Counters) : Prop :=
  ∀ k : Counter, c.get k < 4294967296

/-! ## Events of a session -/

/-- The three uses of the session's `deadline_timer`. -/
inductive Timer
  | jitter
  | pacing
  | linger
  deriving DecidableEq

/-- The transport operations of a session; `write i` and `read i` belong to
iteration `i` of the request loop. -/
inductive Op
  | connect
  | handshake
  | write (i : Nat)
  | read (i : Nat)
  | shutdown
  deriving DecidableEq

/-- One atomic step of a session coroutine. -/
inductive Event
  | inc (k : Counter)
  | dec (k : Counter)
  | wait (t : Timer) (ms : Nat) (ec : ErrorCode)
  | sni (ok : Bool)
  | io (op : Op) (ec : ErrorCode)
  deriving DecidableEq

/-- What the environment answers at each suspension point of one session: the
values returned by `rand()`, the error code of every timer wait and transport
operation, and the result of `SSL_set_tlsext_host_name`. -/
structure Outcomes where
  jitterRand : Nat
  jitter : ErrorCode
  sni : Bool
  connect : ErrorCode
  handshake : ErrorCode
  write : Nat → ErrorCode
  read : Nat → ErrorCode
  pacingRand : Nat → Nat
  pacing : Nat → ErrorCode
  linger : ErrorCode
  shutdown : ErrorCode

/-- Source `fail(ec, what)` (lines 71-77): `++failed_sessions`. The line
written to `std::cerr` is not modelled. -/
def fail : List Event := [Event.inc Counter.failed_sessions]

/-- The lambda `doRequest` (lines 133-166 and 231-261; the two copies differ
only in a deadline reset): the events of one call and its return value. -/
def doRequest (o : Outcomes) (i : Nat) : Bool × List Event :=
  if o.write i ≠ ErrorCode.success then
    (false, [Event.io (Op.write i) (o.write i)] ++ fail ++ [Event.inc Counter.failed_requests])
  else if o.read i ≠ ErrorCode.success then
    (false, [Event.io (Op.write i) (o.write i), Event.io (Op.read i) (o.read i)] ++ fail
      ++ [Event.inc Counter.failed_requests])
  else
    (true, [Event.io (Op.write i) (o.write i), Event.io (Op.read i) (o.read i),
      Event.inc Counter.success_requests])

/-- The request loop `for (uint32_t i = 0; i < requests; ++i)` (lines 167-175
and 263-271), entered at loop index `i` with `left = requests - i` iterations
to go. The flag is `true` when the loop runs to its end and `false` when the
body executes `return`. -/
def requestLoop (o : Outcomes) : (left : Nat) → (i : Nat) → Bool × List Event
  | 0, _ => (true, [])
  | left + 1, i =>
    let r := doRequest o i
    if r.1 = false then (false, r.2)
    else
      let pace := Event.wait Timer.pacing (100 + o.pacingRand i % 3000) (o.pacing i)
      if o.pacing i = ErrorCode.operation_aborted then (false, r.2 ++ [pace])
      else
        let rest := requestLoop o left (i + 1)
        (rest.1, r.2 ++ [pace] ++ rest.2)

/-- Source `do_session` (lines 196-287): the events of one plain-transport
session, in program order. The destructors of `cs` and `conter` run at every
`return`, in reverse order of construction. -/
def do_session (requests : Nat) (o : Outcomes) : List Event :=
  [Event.wait Timer.jitter (o.jitterRand % 2000) o.jitter,
   Event.inc Counter.active_sessions,
   Event.io Op.connect o.connect] ++
  (if o.connect ≠ ErrorCode.success then fail
   else
     [Event.inc Counter.connected_sessions] ++
     (let loop := requestLoop o requests 0
      loop.2 ++
      (if loop.1 = false then []
       else
         [Event.wait Timer.linger 2500 o.linger, Event.io Op.shutdown o.shutdown] ++
         (if o.shutdown ≠ ErrorCode.success ∧ o.shutdown ≠ ErrorCode.not_connected then fail
          else [Event.inc Counter.success_sessions]))) ++
     [Event.dec Counter.connected_sessions]) ++
  [Event.dec Counter.active_sessions]

/-- Source `do_ssl_session` (lines 81-193): the events of one TLS session, in
program order. -/
def do_ssl_session (requests : Nat) (o : Outcomes) : List Event :=
  [Event.wait Timer.jitter (o.jitterRand % 2000) o.jitter,
   Event.inc Counter.active_sessions,
   Event.sni o.sni] ++
  (if o.sni = false then []
   else
     [Event.io Op.connect o.connect] ++
     (if o.connect ≠ ErrorCode.success then fail
      else
        [Event.io Op.handshake o.handshake] ++
        (if o.handshake ≠ ErrorCode.success then fail
         else
           [Event.inc Counter.connected_sessions] ++
           (let loop := requestLoop o requests 0
            loop.2 ++
            (if loop.1 = false then []
             else
               [Event.wait Timer.linger 2500 o.linger, Event.io Op.shutdown o.shutdown] ++
               (let ec := if o.shutdown = ErrorCode.eof then ErrorCode.success else o.shutdown
                if ec ≠ ErrorCode.success then fail
                else [Event.inc Counter.success_sessions]))) ++
           [Event.dec Counter.connected_sessions]))) ++
  [Event.dec Counter.active_sessions]

/-- The coroutine `main` spawns for each session: `do_ssl_session` when the
`ssl` switch is set, `do_session` otherwise (lines 376-395). -/
def session (ssl : Bool) (requests : Nat) (o : Outcomes) : List Event :=
  if ssl then do_ssl_session requests o else do_session requests o

/-! ## Runs -/

/-- The effect of one event on the global counters. -/
def Counters.apply (c : Counters) : Event → Counters
  | Event.inc k => c.modify incr32 k
  | Event.dec k => c.modify decr32 k
  | _ => c

/-- The counters after a sequence of events. -/
def Counters.applyAll (c : Counters) (es : List Event) : Counters :=
  es.foldl Counters.apply c

/-- A spawned session coroutine: the events it has performed and the events
it has yet to perform. -/
structure Proc where
  done : List Event
  todo : List Event

/-- The state of a run: the counters, the session coroutines, and whether the
reporter coroutine has left its loop. -/
structure RunState where
  counters : Counters
  procs : List Proc
  reporterExited : Bool

/-- What the `io_context` resumes next: session number `i`, or the reporter. -/
inductive Tick
  | session (i : Nat)
  | reporter

/-- Let session `i` perform its next event, if it exists and has one. -/
def stepProc : Nat → List Proc → Option (Event × List Proc)
  | _, [] => none
  | 0, p :: ps =>
    match p.todo with
    | [] => none
    | e :: rest => some (e, ⟨p.done ++ [e], rest⟩ :: ps)
  | i + 1, p :: ps =>
    match stepProc i ps with
    | none => none
    | some (e, ps') => some (e, p :: ps')

/-- One step of the run. A reporter tick is one pass through the loop
condition `while (active_sessions.load())` (line 372): the reporter leaves
its loop when it reads zero. -/
def step (s : RunState) : Tick → RunState
  | Tick.session i =>
    match stepProc i s.procs with
    | none => s
    | some (e, ps) => ⟨s.counters.apply e, ps, s.reporterExited⟩
  | Tick.reporter =>
    if s.reporterExited then s
    else ⟨s.counters, s.procs, decide (s.counters.active_sessions = 0)⟩

/-- The spawn loops `while (count--) boost::asio::spawn(...)` (lines 376-395):
`count` session coroutines, session `i` facing the outcomes `env i`. -/
def spawnSessions (ssl : Bool) (requests count : Nat) (env : Nat → Outcomes) : List Proc :=
  (List.range count).map (fun i => ⟨[], session ssl requests (env i)⟩)

/-- The state when `ioc.run()` starts: counters at zero, every session
spawned, the reporter in its loop. -/
def initial (ssl : Bool) (requests count : Nat) (env : Nat → Outcomes) : RunState :=
  ⟨Counters.zero, spawnSessions ssl requests count env, false⟩

/-- The state reached from `initial` by the schedule `sched`. -/
def run (ssl : Bool) (requests count : Nat) (env : Nat → Outcomes) (sched : List Tick) :
    RunState :=
  sched.foldl step (initial ssl requests count env)

/-- Every spawned session has returned. -/
def RunState.Completed (s : RunState) : Prop :=
  ∀ p ∈ s.procs, p.todo = []

instance (s : RunState) : Decidable s.Completed := by
  unfold RunState.Completed; infer_instance

/-- The ticks that run the sessions `ps`, numbered from `i` on, one after the
other, each to its end. -/
def drainFrom (i : Nat) : List Proc → List Tick
  | [] => []
  | p :: ps => List.replicate p.todo.length (Tick.session i) ++ drainFrom (i + 1) ps

/-- The schedule that runs the sessions one after the other, each to its end. -/
def sequential (ps : List Proc) : List Tick := drainFrom 0 ps

/-! ## URL split -/

/-- Model of `std::string::find(char)`: the index of the first occurrence,
`none` standing for `std::string::npos`. -/
def find (c : Char) : List Char → Option Nat
  | [] => none
  | x :: xs => if x = c then some 0 else (find c xs).map (fun n => n + 1)

/-- The three strings `main` derives from the positional `url` argument. -/
structure Url where
  host : List Char
  port : List Char
  target : List Char
  deriving DecidableEq

/-- The URL split of `main` (lines 321-330, defaults from lines 296-298).
`substr(idx)` is `drop idx`, and `substr(0, idx)` is `take idx`, the whole
string when `idx` is `npos`. -/
def parseUrl (ssl : Bool) (url : List Char) : Url :=
  let port := if ssl then "443".toList else "80".toList
  let target := "/".toList
  let idx := find '/' url
  let target := match idx with
    | some i => url.drop i
    | none => target
  let url := match idx with
    | some i => url.take i
    | none => url
  let idx := find ':' url
  let port := match idx with
    | some i => url.drop (i + 1)
    | none => port
  let host := match idx with
    | some i => url.take i
    | none => url
  ⟨host, port, target⟩

/-! ## Sample outcomes -/

/-- Every operation and every timer wait succeeds; `rand()` returns 0. -/
def okOutcomes : Outcomes :=
  ⟨0, ErrorCode.success, true, ErrorCode.success, ErrorCode.success,
   fun _ => ErrorCode.success, fun _ => ErrorCode.success, fun _ => 0,
   fun _ => ErrorCode.success, ErrorCode.success, ErrorCode.success⟩

/-- The peer refuses the connection. -/
def refusedOutcomes : Outcomes :=
  { okOutcomes with connect := ErrorCode.other 111 }

/-- The server answers the first request and closes the connection before the
second response arrives: the second receive ends with `eof`. -/
def closedAfterFirst : Outcomes :=
  { okOutcomes with read := fun i => if i = 1 then ErrorCode.eof else ErrorCode.success }

/-- Every operation succeeds and every pacing wait ends with
`operation_aborted`, so the session returns from the first one. -/
def abortedOutcomes : Outcomes :=
  { okOutcomes with pacing := fun _ => ErrorCode.operation_aborted }

/-- The peer is already gone at shutdown: `not_connected`. -/
def goneOutcomes : Outcomes :=
  { okOutcomes with shutdown := ErrorCode.not_connected }

/-! ## Counting events -/

/-- Number of increments of counter `k` among the events `es`. -/
def incs (k : Counter) (es : List Event) : Nat := es.count (Event.inc k)

/-- Number of decrements of counter `k` among the events `es`. -/
def decs (k : Counter) (es : List Event) : Nat := es.count (Event.dec k)

/-- The event is the send of a request (`http::async_write`). -/
def Event.isWrite : Event → Bool
  | Event.io (Op.write _) _ => true
  | _ => false

/-- The event is a wait on the inter-request pacing timer. -/
def Event.isPacing : Event → Bool
  | Event.wait Timer.pacing _ _ => true
  | _ => false

/-- Number of requests the events `es` attempt (calls of `doRequest`). -/
def attempts (es : List Event) : Nat := es.countP Event.isWrite

/-- Number of inter-request pacing waits among the events `es`. -/
def pacingWaits (es : List Event) : Nat := es.countP Event.isPacing

/-- The kinds of event the request loop performs. -/
def Event.inLoop : Event → Bool
  | Event.io (Op.write _) _ => true
  | Event.io (Op.read _) _ => true
  | Event.inc Counter.failed_sessions => true
  | Event.inc Counter.failed_requests => true
  | Event.inc Counter.success_requests => true
  | Event.wait Timer.pacing _ _ => true
  | _ => false

/-- The events of a session up to and including `ConnectedSessionsCounter cs`,
when the connection (and, for TLS, the handshake) succeeds. -/
def connectedHead (ssl : Bool) (o : Outcomes) : List Event :=
  [Event.wait Timer.jitter (o.jitterRand % 2000) o.jitter, Event.inc Counter.active_sessions] ++
  (if ssl then [Event.sni true, Event.io Op.connect ErrorCode.success,
      Event.io Op.handshake ErrorCode.success]
   else [Event.io Op.connect ErrorCode.success]) ++
  [Event.inc Counter.connected_sessions]

/-- The shutdown error code is one the session reports as a failure: any
error but `not_connected` on the plain transport (line 282), any error but
`eof` on the secure transport (lines 182-189). -/
def shutdownFails (ssl : Bool) (ec : ErrorCode) : Prop :=
  if ssl then ec ≠ ErrorCode.success ∧ ec ≠ ErrorCode.eof
  else ec ≠ ErrorCode.success ∧ ec ≠ ErrorCode.not_connected

instance (ssl : Bool) (ec : ErrorCode) : Decidable (shutdownFails ssl ec) := by
  unfold shutdownFails; infer_instance

/-- All the events of a session coroutine, performed and to come. -/
def Proc.full (p : Proc) : List Event := p.done ++ p.todo

/-- The sum over all sessions of a count `f` over the events performed. -/
def total (f : List Event → Nat) (ps : List Proc) : Nat :=
  (ps.map (fun p => f p.done)).sum

/-- The traces of the sessions `main` spawns. -/
def traces (ssl : Bool) (requests count : Nat) (env : Nat → Outcomes) : List (List Event) :=
  (List.range count).map (fun i => session ssl requests (env i))

/-- The invariant of a run: every coroutine is at some point of its own
trace, and every counter is the number of its increments minus the number of
its decrements so far, modulo `2 ^ 32`. -/
def Inv (ts : List (List Event)) (s : RunState) : Prop :=
  s.procs.map Proc.full = ts ∧
  ∀ k, s.counters.get k =
    (total (incs k) s.procs + 4294967295 * total (decs k) s.procs) % 4294967296

/-- The event changes `active_sessions` or `connected_sessions`. -/
def Event.isAC : Event → Bool
  | Event.inc Counter.active_sessions => true
  | Event.inc Counter.connected_sessions => true
  | Event.dec Counter.active_sessions => true
  | Event.dec Counter.connected_sessions => true
  | _ => false

/-- A session has left the start-up phase: its jitter wait is over and it
has constructed its `SessionsCounter`. -/
def Proc.started (p : Proc) : Bool := decide (2 ≤ p.done.length)

/-- A session has returned. -/
def Proc.returned (p : Proc) : Bool := p.todo.isEmpty

/-- A session is past its start-up phase and has not returned. -/
def Proc.running (p : Proc) : Bool := p.started && !p.returned

/-- A session whose start-up jitter is 1500 ms and whose operations all
succeed. -/
def slowStart : Outcomes :=
  { okOutcomes with jitterRand := 1500 }

/-- The event is a pacing wait that ended with `operation_aborted`. -/
def Event.isAbortedPacing : Event → Bool
  | Event.wait Timer.pacing _ ErrorCode.operation_aborted => true
  | _ => false

/-- The session returned from an aborted pacing wait (lines 173-174 and
269-270). -/
def abortedPacing (es : List Event) : Bool := es.any Event.isAbortedPacing

/-! # Theorems -/

/-! ## Lemmas on counters -/

theorem get_modify (c : Counters) (f : Nat → Nat) (k k' : Counter) :
    (c.modify f k).get k' = if k' = k then f (c.get k) else c.get k' := by
  cases k <;> cases k' <;> simp [Counters.modify, Counters.get]

theorem get_apply (c : Counters) (e : Event) (k : Counter) :
    (c.apply e).get k =
      if e = Event.inc k then incr32 (c.get k)
      else if e = Event.dec k then decr32 (c.get k) else c.get k := by
  cases e with
  | inc k' =>
    simp only [Counters.apply, get_modify, Event.inc.injEq, reduceCtorEq, if_false]
    by_cases h : k = k'
    · subst h; simp
    · have h' : ¬ k' = k := fun e => h e.symm
      simp [h, h']
  | dec k' =>
    simp only [Counters.apply, get_modify, Event.dec.injEq, reduceCtorEq, if_false]
    by_cases h : k = k'
    · subst h; simp
    · have h' : ¬ k' = k := fun e => h e.symm
      simp [h, h']
  | wait t ms ec => simp [Counters.apply]
  | sni ok => simp [Counters.apply]
  | io op ec => simp [Counters.apply]

theorem applyAll_cons (c : Counters) (e : Event) (es : List Event) :
    c.applyAll (e :: es) = (c.apply e).applyAll es := rfl

theorem applyAll_append (c : Counters) (es fs : List Event) :
    c.applyAll (es ++ fs) = (c.applyAll es).applyAll fs := by
  simp [Counters.applyAll, List.foldl_append]

theorem incs_cons (k : Counter) (e : Event) (es : List Event) :
    incs k (e :: es) = incs k es + if e = Event.inc k then 1 else 0 := by
  simp [incs, List.count_cons]

theorem decs_cons (k : Counter) (e : Event) (es : List Event) :
    decs k (e :: es) = decs k es + if e = Event.dec k then 1 else 0 := by
  simp [decs, List.count_cons]

theorem incs_append (k : Counter) (es fs : List Event) :
    incs k (es ++ fs) = incs k es + incs k fs := by
  simp [incs, List.count_append]

theorem decs_append (k : Counter) (es fs : List Event) :
    decs k (es ++ fs) = decs k es + decs k fs := by
  simp [decs, List.count_append]

theorem attempts_append (es fs : List Event) :
    attempts (es ++ fs) = attempts es + attempts fs := by
  simp [attempts, List.countP_append]

theorem pacingWaits_append (es fs : List Event) :
    pacingWaits (es ++ fs) = pacingWaits es + pacingWaits fs := by
  simp [pacingWaits, List.countP_append]

/-- A counter that holds a `uint32_t` value holds, after the events `es`, its
old value plus the increments minus the decrements, modulo `2 ^ 32`. -/
theorem applyAll_get (es : List Event) (c : Counters) (k : Counter)
    (h : c.get k < 4294967296) :
    (c.applyAll es).get k = (c.get k + incs k es + 4294967295 * decs k es) % 4294967296 := by
  induction es generalizing c with
  | nil => simp [Counters.applyAll, incs, decs]; omega
  | cons e es ih =>
    have hlt : (c.apply e).get k < 4294967296 := by
      rw [get_apply]; unfold incr32 decr32; split_ifs <;> omega
    rw [applyAll_cons, ih _ hlt, get_apply, incs_cons, decs_cons]
    unfold incr32 decr32
    by_cases h1 : e = Event.inc k
    · subst h1; simp; omega
    · by_cases h2 : e = Event.dec k
      · subst h2; simp; omega
      · simp [h1, h2]

theorem applyAll_inRange (es : List Event) (c : Counters) (h : c.InRange) :
    (c.applyAll es).InRange := by
  intro k
  rw [applyAll_get es c k (h k)]
  omega

theorem applyAll_fields (es : List Event) (c : Counters) (hc : c.InRange) :
    (c.applyAll es).active_sessions =
      (c.active_sessions + incs Counter.active_sessions es +
        4294967295 * decs Counter.active_sessions es) % 4294967296 ∧
    (c.applyAll es).connected_sessions =
      (c.connected_sessions + incs Counter.connected_sessions es +
        4294967295 * decs Counter.connected_sessions es) % 4294967296 ∧
    (c.applyAll es).success_sessions =
      (c.success_sessions + incs Counter.success_sessions es +
        4294967295 * decs Counter.success_sessions es) % 4294967296 ∧
    (c.applyAll es).failed_sessions =
      (c.failed_sessions + incs Counter.failed_sessions es +
        4294967295 * decs Counter.failed_sessions es) % 4294967296 ∧
    (c.applyAll es).success_requests =
      (c.success_requests + incs Counter.success_requests es +
        4294967295 * decs Counter.success_requests es) % 4294967296 ∧
    (c.applyAll es).failed_requests =
      (c.failed_requests + incs Counter.failed_requests es +
        4294967295 * decs Counter.failed_requests es) % 4294967296 :=
  ⟨applyAll_get es c Counter.active_sessions (hc _),
   applyAll_get es c Counter.connected_sessions (hc _),
   applyAll_get es c Counter.success_sessions (hc _),
   applyAll_get es c Counter.failed_sessions (hc _),
   applyAll_get es c Counter.success_requests (hc _),
   applyAll_get es c Counter.failed_requests (hc _)⟩

theorem inRange_fields (c : Counters) (hc : c.InRange) :
    c.active_sessions < 4294967296 ∧ c.connected_sessions < 4294967296 ∧
    c.success_sessions < 4294967296 ∧ c.failed_sessions < 4294967296 ∧
    c.success_requests < 4294967296 ∧ c.failed_requests < 4294967296 :=
  ⟨hc Counter.active_sessions, hc Counter.connected_sessions, hc Counter.success_sessions,
   hc Counter.failed_sessions, hc Counter.success_requests, hc Counter.failed_requests⟩

/-! ## Lemmas on the request loop -/

theorem doRequest_true (o : Outcomes) (i : Nat) (h : (doRequest o i).1 = true) :
    o.write i = ErrorCode.success ∧ o.read i = ErrorCode.success ∧
    (doRequest o i).2 = [Event.io (Op.write i) ErrorCode.success,
      Event.io (Op.read i) ErrorCode.success, Event.inc Counter.success_requests] := by
  unfold doRequest at h ⊢
  split_ifs at h ⊢ with h1 h2
  simp only [ne_eq, not_not] at h1 h2
  simp [h1, h2]

theorem doRequest_false (o : Outcomes) (i : Nat) (h : (doRequest o i).1 = false) :
    (o.write i ≠ ErrorCode.success ∧
      (doRequest o i).2 = [Event.io (Op.write i) (o.write i),
        Event.inc Counter.failed_sessions, Event.inc Counter.failed_requests]) ∨
    (o.write i = ErrorCode.success ∧ o.read i ≠ ErrorCode.success ∧
      (doRequest o i).2 = [Event.io (Op.write i) ErrorCode.success,
        Event.io (Op.read i) (o.read i),
        Event.inc Counter.failed_sessions, Event.inc Counter.failed_requests]) := by
  unfold doRequest at h ⊢
  split_ifs at h ⊢ with h1 h2
  · left; exact ⟨h1, by simp [fail]⟩
  · right
    simp only [ne_eq, not_not] at h1
    exact ⟨h1, h2, by simp [fail, h1]⟩

theorem requestLoop_succ (o : Outcomes) (left i : Nat) :
    requestLoop o (left + 1) i =
      if (doRequest o i).1 = false then (false, (doRequest o i).2)
      else if o.pacing i = ErrorCode.operation_aborted then
        (false, (doRequest o i).2 ++
          [Event.wait Timer.pacing (100 + o.pacingRand i % 3000) (o.pacing i)])
      else ((requestLoop o left (i + 1)).1,
        (doRequest o i).2 ++
          [Event.wait Timer.pacing (100 + o.pacingRand i % 3000) (o.pacing i)] ++
          (requestLoop o left (i + 1)).2) := rfl

/-- What the request loop does to the counters, whatever the outcomes. -/
theorem requestLoop_counts (o : Outcomes) (left i : Nat) :
    incs Counter.active_sessions (requestLoop o left i).2 = 0 ∧
    incs Counter.connected_sessions (requestLoop o left i).2 = 0 ∧
    incs Counter.success_sessions (requestLoop o left i).2 = 0 ∧
    (∀ k, decs k (requestLoop o left i).2 = 0) ∧
    incs Counter.success_requests (requestLoop o left i).2 +
      incs Counter.failed_requests (requestLoop o left i).2 =
        attempts (requestLoop o left i).2 ∧
    attempts (requestLoop o left i).2 ≤ left ∧
    incs Counter.failed_sessions (requestLoop o left i).2 =
      incs Counter.failed_requests (requestLoop o left i).2 ∧
    incs Counter.failed_requests (requestLoop o left i).2 ≤ 1 ∧
    ((requestLoop o left i).1 = true →
      incs Counter.failed_requests (requestLoop o left i).2 = 0 ∧
      incs Counter.success_requests (requestLoop o left i).2 = left ∧
      pacingWaits (requestLoop o left i).2 = left) ∧
    ((requestLoop o left i).1 = false →
      incs Counter.failed_requests (requestLoop o left i).2 = 1 ∨
      ∃ j, j < left ∧ o.pacing (i + j) = ErrorCode.operation_aborted) := by
  induction left generalizing i with
  | zero => simp [requestLoop, incs, decs, attempts, pacingWaits]
  | succ left ih =>
    rw [requestLoop_succ]
    by_cases hr : (doRequest o i).1 = false
    · rw [if_pos hr]
      rcases doRequest_false o i hr with ⟨_, h2⟩ | ⟨_, _, h2⟩ <;>
        simp [h2, incs, decs, attempts, pacingWaits, List.count_cons, Event.isWrite,
          Event.isPacing]
    · rw [if_neg hr]
      have hr' : (doRequest o i).1 = true := by simpa using hr
      obtain ⟨_, _, h2⟩ := doRequest_true o i hr'
      by_cases hp : o.pacing i = ErrorCode.operation_aborted
      · rw [if_pos hp]
        simp only [h2]
        refine ⟨?_, ?_, ?_, ?_, ?_, ?_, ?_, ?_, ?_, ?_⟩ <;>
          simp [incs, decs, attempts, pacingWaits, List.count_cons, Event.isWrite,
            Event.isPacing]
        exact ⟨0, by omega, by simpa using hp⟩
      · rw [if_neg hp]
        obtain ⟨a1, a2, a3, a4, a5, a6, a7, a8, a9, a10⟩ := ih (i + 1)
        simp only [h2]
        refine ⟨?_, ?_, ?_, ?_, ?_, ?_, ?_, ?_, ?_, ?_⟩
        · simpa [incs, List.count_cons] using a1
        · simpa [incs, List.count_cons] using a2
        · simpa [incs, List.count_cons] using a3
        · intro k
          simpa [decs, List.count_cons] using a4 k
        · simp only [incs, attempts, List.count_append, List.countP_append] at a5 ⊢
          simp [List.count_cons, Event.isWrite, List.countP_cons]
          omega
        · simp only [attempts, List.countP_append] at a6 ⊢
          simp [Event.isWrite, List.countP_cons]
          omega
        · simp only [incs, List.count_append] at a7 ⊢
          simp [List.count_cons]
          exact a7
        · simp only [incs, List.count_append] at a8 ⊢
          simp [List.count_cons]
          exact a8
        · intro ht
          obtain ⟨b1, b2, b3⟩ := a9 ht
          simp only [incs, pacingWaits, List.count_append, List.countP_append] at b1 b2 b3 ⊢
          simp [List.count_cons, List.countP_cons, Event.isPacing]
          omega
        · intro hf
          rcases a10 hf with b | ⟨j, hj, hj'⟩
          · left
            simp only [incs, List.count_append] at b ⊢
            simp [List.count_cons]
            exact b
          · right
            exact ⟨j + 1, by omega, by rw [← hj']; congr 1; omega⟩

theorem requestLoop_inLoop (o : Outcomes) (left i : Nat) :
    ∀ e ∈ (requestLoop o left i).2, e.inLoop = true := by
  induction left generalizing i with
  | zero => simp [requestLoop]
  | succ left ih =>
    rw [requestLoop_succ]
    by_cases hr : (doRequest o i).1 = false
    · rw [if_pos hr]
      rcases doRequest_false o i hr with ⟨_, h2⟩ | ⟨_, _, h2⟩ <;>
        simp [h2, Event.inLoop]
    · rw [if_neg hr]
      have hr' : (doRequest o i).1 = true := by simpa using hr
      obtain ⟨_, _, h2⟩ := doRequest_true o i hr'
      by_cases hp : o.pacing i = ErrorCode.operation_aborted
      · rw [if_pos hp, h2]
        simp [Event.inLoop]
      · rw [if_neg hp, h2]
        intro e he
        simp only [List.mem_append, List.mem_cons, List.mem_singleton, List.not_mem_nil,
          or_false] at he
        rcases he with ((he | he | he) | he) | he
        · simp [he, Event.inLoop]
        · simp [he, Event.inLoop]
        · simp [he, Event.inLoop]
        · simp [he, Event.inLoop]
        · exact ih (i + 1) e he

/-- A send in iteration `m` happens only after every earlier iteration went
through without error and without an aborted pacing wait. -/
theorem requestLoop_write_mem (o : Outcomes) (left i m : Nat) (ec : ErrorCode)
    (h : Event.io (Op.write m) ec ∈ (requestLoop o left i).2) :
    i ≤ m ∧ m < i + left ∧ ec = o.write m ∧
    ∀ j, i ≤ j → j < m → o.write j = ErrorCode.success ∧ o.read j = ErrorCode.success ∧
      o.pacing j ≠ ErrorCode.operation_aborted := by
  induction left generalizing i with
  | zero => simp [requestLoop] at h
  | succ left ih =>
    rw [requestLoop_succ] at h
    by_cases hr : (doRequest o i).1 = false
    · rw [if_pos hr] at h
      rcases doRequest_false o i hr with ⟨_, h2⟩ | ⟨hw, _, h2⟩ <;>
      · rw [h2] at h
        simp at h
        obtain ⟨rfl, rfl⟩ := h
        refine ⟨le_refl _, by omega, ?_, fun j h1 h2 => by omega⟩
        first | rfl | exact hw.symm
    · rw [if_neg hr] at h
      have hr' : (doRequest o i).1 = true := by simpa using hr
      obtain ⟨hw, hrd, h2⟩ := doRequest_true o i hr'
      by_cases hp : o.pacing i = ErrorCode.operation_aborted
      · rw [if_pos hp, h2] at h
        simp at h
        obtain ⟨rfl, rfl⟩ := h
        exact ⟨le_refl _, by omega, hw.symm, fun j h1 h2 => by omega⟩
      · rw [if_neg hp, h2] at h
        simp at h
        rcases h with ⟨rfl, rfl⟩ | h
        · exact ⟨le_refl _, by omega, hw.symm, fun j h1 h2 => by omega⟩
        · obtain ⟨b1, b2, b3, b4⟩ := ih (i + 1) h
          refine ⟨by omega, by omega, b3, fun j h1 h2 => ?_⟩
          by_cases hj : j = i
          · subst hj; exact ⟨hw, hrd, hp⟩
          · exact b4 j (by omega) h2

/-- A receive in iteration `m` happens only after the send of that iteration
succeeded and every earlier iteration went through. -/
theorem requestLoop_read_mem (o : Outcomes) (left i m : Nat) (ec : ErrorCode)
    (h : Event.io (Op.read m) ec ∈ (requestLoop o left i).2) :
    i ≤ m ∧ m < i + left ∧ ec = o.read m ∧ o.write m = ErrorCode.success ∧
    ∀ j, i ≤ j → j < m → o.write j = ErrorCode.success ∧ o.read j = ErrorCode.success ∧
      o.pacing j ≠ ErrorCode.operation_aborted := by
  induction left generalizing i with
  | zero => simp [requestLoop] at h
  | succ left ih =>
    rw [requestLoop_succ] at h
    by_cases hr : (doRequest o i).1 = false
    · rw [if_pos hr] at h
      rcases doRequest_false o i hr with ⟨_, h2⟩ | ⟨hw, _, h2⟩
      · rw [h2] at h
        simp at h
      · rw [h2] at h
        simp at h
        obtain ⟨rfl, rfl⟩ := h
        exact ⟨le_refl _, by omega, rfl, hw, fun j h1 h2 => by omega⟩
    · rw [if_neg hr] at h
      have hr' : (doRequest o i).1 = true := by simpa using hr
      obtain ⟨hw, hrd, h2⟩ := doRequest_true o i hr'
      by_cases hp : o.pacing i = ErrorCode.operation_aborted
      · rw [if_pos hp, h2] at h
        simp at h
        obtain ⟨rfl, rfl⟩ := h
        exact ⟨le_refl _, by omega, hrd.symm, hw, fun j h1 h2 => by omega⟩
      · rw [if_neg hp, h2] at h
        simp at h
        rcases h with ⟨rfl, rfl⟩ | h
        · exact ⟨le_refl _, by omega, hrd.symm, hw, fun j h1 h2 => by omega⟩
        · obtain ⟨b1, b2, b3, b4, b5⟩ := ih (i + 1) h
          refine ⟨by omega, by omega, b3, b4, fun j h1 h2 => ?_⟩
          by_cases hj : j = i
          · subst hj; exact ⟨hw, hrd, hp⟩
          · exact b5 j (by omega) h2

/-- When the first `k` iterations go through and iteration `k` fails on send
or on receive, the loop returns after `k + 1` attempts. -/
theorem requestLoop_fail_at (o : Outcomes) (left i k : Nat) (hk : k < left)
    (hfirst : ∀ j, i ≤ j → j < i + k → o.write j = ErrorCode.success ∧
      o.read j = ErrorCode.success ∧ o.pacing j ≠ ErrorCode.operation_aborted)
    (hfail : o.write (i + k) ≠ ErrorCode.success ∨ o.read (i + k) ≠ ErrorCode.success) :
    (requestLoop o left i).1 = false ∧
    incs Counter.success_requests (requestLoop o left i).2 = k ∧
    incs Counter.failed_requests (requestLoop o left i).2 = 1 ∧
    attempts (requestLoop o left i).2 = k + 1 := by
  induction left generalizing i k with
  | zero => omega
  | succ left ih =>
    rw [requestLoop_succ]
    cases k with
    | zero =>
      have hr : (doRequest o i).1 = false := by
        unfold doRequest
        simp only [Nat.add_zero] at hfail
        split_ifs with h1 h2
        · rfl
        · rfl
        · rcases hfail with h | h
          · exact absurd h h1
          · exact absurd h h2
      rw [if_pos hr]
      rcases doRequest_false o i hr with ⟨_, h2⟩ | ⟨_, _, h2⟩ <;>
        simp [h2, incs, attempts, List.count_cons, Event.isWrite]
    | succ k =>
      obtain ⟨hw, hrd, hp⟩ := hfirst i (le_refl _) (by omega)
      have hr' : (doRequest o i).1 = true := by
        unfold doRequest
        simp [hw, hrd]
      have hr : ¬ (doRequest o i).1 = false := by simp [hr']
      obtain ⟨_, _, h2⟩ := doRequest_true o i hr'
      rw [if_neg hr, if_neg hp]
      have hfail' : o.write (i + 1 + k) ≠ ErrorCode.success ∨
          o.read (i + 1 + k) ≠ ErrorCode.success := by
        have e : i + 1 + k = i + (k + 1) := by omega
        rw [e]; exact hfail
      obtain ⟨b1, b2, b3, b4⟩ := ih (i + 1) k (by omega)
        (fun j h1 h2 => hfirst j (by omega) (by omega)) hfail'
      refine ⟨b1, ?_, ?_, ?_⟩
      · simp only [h2, incs, List.count_append] at b2 ⊢
        simp [List.count_cons]
        omega
      · simp only [h2, incs, List.count_append] at b3 ⊢
        simp [List.count_cons]
        omega
      · simp only [h2, attempts, List.countP_append] at b4 ⊢
        simp [List.countP_cons, Event.isWrite]
        omega

/-! ## The paths through a session -/

/-- The five ways through a session: the SNI host name is refused (TLS only),
the connection fails, the handshake fails (TLS only), the request loop
returns, or the session reaches the shutdown. -/
theorem session_cases (ssl : Bool) (n : Nat) (o : Outcomes) :
    (ssl = true ∧ o.sni = false ∧
      session ssl n o =
        [Event.wait Timer.jitter (o.jitterRand % 2000) o.jitter,
         Event.inc Counter.active_sessions, Event.sni false,
         Event.dec Counter.active_sessions]) ∨
    (o.connect ≠ ErrorCode.success ∧ (ssl = true → o.sni = true) ∧
      session ssl n o =
        [Event.wait Timer.jitter (o.jitterRand % 2000) o.jitter,
         Event.inc Counter.active_sessions] ++
        (if ssl then [Event.sni true] else []) ++
        [Event.io Op.connect o.connect, Event.inc Counter.failed_sessions,
         Event.dec Counter.active_sessions]) ∨
    (ssl = true ∧ o.sni = true ∧ o.connect = ErrorCode.success ∧
      o.handshake ≠ ErrorCode.success ∧
      session ssl n o =
        [Event.wait Timer.jitter (o.jitterRand % 2000) o.jitter,
         Event.inc Counter.active_sessions, Event.sni true,
         Event.io Op.connect ErrorCode.success, Event.io Op.handshake o.handshake,
         Event.inc Counter.failed_sessions, Event.dec Counter.active_sessions]) ∨
    ((requestLoop o n 0).1 = false ∧
      session ssl n o =
        connectedHead ssl o ++ (requestLoop o n 0).2 ++
        [Event.dec Counter.connected_sessions, Event.dec Counter.active_sessions]) ∨
    ((requestLoop o n 0).1 = true ∧
      session ssl n o =
        connectedHead ssl o ++ (requestLoop o n 0).2 ++
        [Event.wait Timer.linger 2500 o.linger, Event.io Op.shutdown o.shutdown] ++
        [Event.inc (if shutdownFails ssl o.shutdown then Counter.failed_sessions
          else Counter.success_sessions)] ++
        [Event.dec Counter.connected_sessions, Event.dec Counter.active_sessions]) := by
  cases ssl
  · -- plain transport
    by_cases hc : o.connect = ErrorCode.success
    · right; right; right
      by_cases hl : (requestLoop o n 0).1 = false
      · left
        refine ⟨hl, ?_⟩
        simp [session, do_session, connectedHead, hc, hl]
      · right
        have hl' : (requestLoop o n 0).1 = true := by simpa using hl
        refine ⟨hl', ?_⟩
        by_cases hs : o.shutdown ≠ ErrorCode.success ∧ o.shutdown ≠ ErrorCode.not_connected
        · simp [session, do_session, connectedHead, hc, hl', shutdownFails, hs, fail]
        · have hs' : ¬ (¬ o.shutdown = ErrorCode.success ∧
              ¬ o.shutdown = ErrorCode.not_connected) := hs
          simp only [session, do_session, connectedHead, hc, hl', shutdownFails, fail]
          simp [hs']
    · right; left
      refine ⟨hc, by simp, ?_⟩
      simp [session, do_session, hc, fail]
  · -- secure transport
    by_cases hn : o.sni = false
    · left
      exact ⟨rfl, hn, by simp [session, do_ssl_session, hn]⟩
    · have hn' : o.sni = true := by simpa using hn
      right
      by_cases hc : o.connect = ErrorCode.success
      · right
        by_cases hh : o.handshake = ErrorCode.success
        · right
          by_cases hl : (requestLoop o n 0).1 = false
          · left
            refine ⟨hl, ?_⟩
            simp [session, do_ssl_session, connectedHead, hn', hc, hh, hl]
          · right
            have hl' : (requestLoop o n 0).1 = true := by simpa using hl
            refine ⟨hl', ?_⟩
            by_cases he : o.shutdown = ErrorCode.eof
            · simp [session, do_ssl_session, connectedHead, hn', hc, hh, hl', shutdownFails,
                he]
            · by_cases hs : o.shutdown = ErrorCode.success
              · simp [session, do_ssl_session, connectedHead, hn', hc, hh, hl',
                  shutdownFails, hs]
              · simp [session, do_ssl_session, connectedHead, hn', hc, hh, hl',
                  shutdownFails, hs, he, fail]
        · left
          exact ⟨rfl, hn', hc, hh, by simp [session, do_ssl_session, hn', hc, hh, fail]⟩
      · left
        exact ⟨hc, fun _ => hn', by simp [session, do_ssl_session, hn', hc, fail]⟩

/-! ## Lemmas on whole sessions -/

theorem zero_inRange : Counters.zero.InRange := by
  intro k
  cases k <;> simp [Counters.zero, Counters.get]

theorem not_mem_requestLoop (o : Outcomes) (n i : Nat) (e : Event) (h : e.inLoop = false) :
    e ∉ (requestLoop o n i).2 := by
  intro hm
  have := requestLoop_inLoop o n i e hm
  rw [h] at this
  exact Bool.noConfusion this

theorem incs_connectedHead (ssl : Bool) (o : Outcomes) (k : Counter) :
    incs k (connectedHead ssl o) =
      if k = Counter.active_sessions ∨ k = Counter.connected_sessions then 1 else 0 := by
  cases ssl <;> cases k <;> simp [connectedHead, incs, List.count_cons]

theorem decs_connectedHead (ssl : Bool) (o : Outcomes) (k : Counter) :
    decs k (connectedHead ssl o) = 0 := by
  cases ssl <;> simp [connectedHead, decs, List.count_cons]

theorem attempts_connectedHead (ssl : Bool) (o : Outcomes) :
    attempts (connectedHead ssl o) = 0 := by
  cases ssl <;> simp [connectedHead, attempts, List.countP_cons, Event.isWrite]

theorem pacingWaits_connectedHead (ssl : Bool) (o : Outcomes) :
    pacingWaits (connectedHead ssl o) = 0 := by
  cases ssl <;> simp [connectedHead, pacingWaits, List.countP_cons, Event.isPacing]

/-- The counter events of a session whose request loop returns. -/
theorem returned_counts (ssl : Bool) (o : Outcomes) (l es : List Event)
    (h : es = connectedHead ssl o ++ l ++
      [Event.dec Counter.connected_sessions, Event.dec Counter.active_sessions])
    (k : Counter) :
    incs k es =
      (if k = Counter.active_sessions ∨ k = Counter.connected_sessions then 1 else 0) +
        incs k l ∧
    decs k es = decs k l +
      (if k = Counter.active_sessions ∨ k = Counter.connected_sessions then 1 else 0) ∧
    attempts es = attempts l ∧ pacingWaits es = pacingWaits l := by
  subst h
  refine ⟨?_, ?_, ?_, ?_⟩
  · rw [incs_append, incs_append, incs_connectedHead]
    cases k <;> simp [incs, List.count_cons]
  · rw [decs_append, decs_append, decs_connectedHead]
    cases k <;> simp [decs, List.count_cons]
  · rw [attempts_append, attempts_append, attempts_connectedHead]
    simp [attempts, List.countP_cons, Event.isWrite]
  · rw [pacingWaits_append, pacingWaits_append, pacingWaits_connectedHead]
    simp [pacingWaits, List.countP_cons, Event.isPacing]

/-- The counter events of a session that reaches the shutdown. -/
theorem shutdown_counts (ssl : Bool) (o : Outcomes) (l es : List Event) (x : Counter)
    (h : es = connectedHead ssl o ++ l ++
      [Event.wait Timer.linger 2500 o.linger, Event.io Op.shutdown o.shutdown] ++
      [Event.inc x] ++
      [Event.dec Counter.connected_sessions, Event.dec Counter.active_sessions])
    (k : Counter) :
    incs k es =
      (if k = Counter.active_sessions ∨ k = Counter.connected_sessions then 1 else 0) +
        incs k l + (if x = k then 1 else 0) ∧
    decs k es = decs k l +
      (if k = Counter.active_sessions ∨ k = Counter.connected_sessions then 1 else 0) ∧
    attempts es = attempts l ∧ pacingWaits es = pacingWaits l := by
  subst h
  refine ⟨?_, ?_, ?_, ?_⟩
  · rw [incs_append, incs_append, incs_append, incs_append, incs_connectedHead]
    cases k <;> simp [incs, List.count_cons]
  · rw [decs_append, decs_append, decs_append, decs_append, decs_connectedHead]
    cases k <;> simp [decs, List.count_cons]
  · rw [attempts_append, attempts_append, attempts_append, attempts_append,
      attempts_connectedHead]
    simp [attempts, List.countP_cons, Event.isWrite]
  · rw [pacingWaits_append, pacingWaits_append, pacingWaits_append, pacingWaits_append,
      pacingWaits_connectedHead]
    simp [pacingWaits, List.countP_cons, Event.isPacing]

theorem shutdownFails_iff (ssl : Bool) (ec : ErrorCode) :
    shutdownFails ssl ec ↔
      ¬ (ec = ErrorCode.success ∨
        ec = (if ssl then ErrorCode.eof else ErrorCode.not_connected)) := by
  cases ssl <;> simp [shutdownFails]

/-- A session performs the shutdown only on the path that runs the request
loop to its end. -/
theorem shutdown_mem (ssl : Bool) (n : Nat) (o : Outcomes) (ec : ErrorCode)
    (h : Event.io Op.shutdown ec ∈ session ssl n o) :
    ec = o.shutdown ∧ (requestLoop o n 0).1 = true ∧
    session ssl n o =
      connectedHead ssl o ++ (requestLoop o n 0).2 ++
      [Event.wait Timer.linger 2500 o.linger, Event.io Op.shutdown o.shutdown] ++
      [Event.inc (if shutdownFails ssl o.shutdown then Counter.failed_sessions
        else Counter.success_sessions)] ++
      [Event.dec Counter.connected_sessions, Event.dec Counter.active_sessions] := by
  have hl := not_mem_requestLoop o n 0 (Event.io Op.shutdown ec) rfl
  rcases session_cases ssl n o with ⟨_, _, e⟩ | ⟨_, _, e⟩ | ⟨_, _, _, _, e⟩ | ⟨_, e⟩ | ⟨hf, e⟩
  · rw [e] at h
    simp at h
  · rw [e] at h
    cases ssl <;> simp at h
  · rw [e] at h
    simp at h
  · rw [e] at h
    cases ssl <;> simp [connectedHead, hl] at h
  · refine ⟨?_, hf, e⟩
    rw [e] at h
    cases ssl <;> simpa [connectedHead, hl] using h

/-- A session performs the linger wait only on the path that runs the request
loop to its end. -/
theorem linger_mem (ssl : Bool) (n : Nat) (o : Outcomes) (ms : Nat) (ec : ErrorCode)
    (h : Event.wait Timer.linger ms ec ∈ session ssl n o) :
    (requestLoop o n 0).1 = true ∧
    session ssl n o =
      connectedHead ssl o ++ (requestLoop o n 0).2 ++
      [Event.wait Timer.linger 2500 o.linger, Event.io Op.shutdown o.shutdown] ++
      [Event.inc (if shutdownFails ssl o.shutdown then Counter.failed_sessions
        else Counter.success_sessions)] ++
      [Event.dec Counter.connected_sessions, Event.dec Counter.active_sessions] := by
  have hl := not_mem_requestLoop o n 0 (Event.wait Timer.linger ms ec) rfl
  rcases session_cases ssl n o with ⟨_, _, e⟩ | ⟨_, _, e⟩ | ⟨_, _, _, _, e⟩ | ⟨_, e⟩ | ⟨hf, e⟩
  · rw [e] at h
    simp at h
  · rw [e] at h
    cases ssl <;> simp at h
  · rw [e] at h
    simp at h
  · rw [e] at h
    cases ssl <;> simp [connectedHead, hl] at h
  · exact ⟨hf, e⟩

/-- A session performs a send or a receive only inside its request loop. -/
theorem request_mem (ssl : Bool) (n : Nat) (o : Outcomes) (e : Event)
    (he : e.isWrite = true ∨ ∃ m ec, e = Event.io (Op.read m) ec)
    (h : e ∈ session ssl n o) :
    e ∈ (requestLoop o n 0).2 ∧
    (((requestLoop o n 0).1 = false ∧
      session ssl n o =
        connectedHead ssl o ++ (requestLoop o n 0).2 ++
        [Event.dec Counter.connected_sessions, Event.dec Counter.active_sessions]) ∨
     ((requestLoop o n 0).1 = true ∧
      session ssl n o =
        connectedHead ssl o ++ (requestLoop o n 0).2 ++
        [Event.wait Timer.linger 2500 o.linger, Event.io Op.shutdown o.shutdown] ++
        [Event.inc (if shutdownFails ssl o.shutdown then Counter.failed_sessions
          else Counter.success_sessions)] ++
        [Event.dec Counter.connected_sessions, Event.dec Counter.active_sessions])) := by
  have hk : ∃ op ec, e = Event.io op ec ∧ (∃ m, op = Op.write m ∨ op = Op.read m) := by
    rcases he with he | ⟨m, ec, rfl⟩
    · cases e with
      | io op ec =>
        cases op with
        | write m => exact ⟨_, _, rfl, m, Or.inl rfl⟩
        | _ => simp [Event.isWrite] at he
      | _ => simp [Event.isWrite] at he
    · exact ⟨_, _, rfl, m, Or.inr rfl⟩
  obtain ⟨op, ec, rfl, m, hop⟩ := hk
  rcases session_cases ssl n o with ⟨_, _, e⟩ | ⟨_, _, e⟩ | ⟨_, _, _, _, e⟩ | ⟨hf, e⟩ | ⟨hf, e⟩
  · rw [e] at h
    rcases hop with rfl | rfl <;> simp at h
  · rw [e] at h
    rcases hop with rfl | rfl <;> cases ssl <;> simp at h
  · rw [e] at h
    rcases hop with rfl | rfl <;> simp at h
  · refine ⟨?_, Or.inl ⟨hf, e⟩⟩
    rw [e] at h
    rcases hop with rfl | rfl <;> cases ssl <;> simpa [connectedHead] using h
  · refine ⟨?_, Or.inr ⟨hf, e⟩⟩
    rw [e] at h
    rcases hop with rfl | rfl <;> cases ssl <;> simpa [connectedHead] using h

/-! ## Single sessions: connect failure -/

/-- The counter events of a session whose connection fails. -/
theorem connect_failed_counts (ssl : Bool) (o : Outcomes) (es : List Event)
    (h : es = [Event.wait Timer.jitter (o.jitterRand % 2000) o.jitter,
         Event.inc Counter.active_sessions] ++
        (if ssl then [Event.sni true] else []) ++
        [Event.io Op.connect o.connect, Event.inc Counter.failed_sessions,
         Event.dec Counter.active_sessions]) (k : Counter) :
    incs k es = (if k = Counter.active_sessions ∨ k = Counter.failed_sessions then 1 else 0) ∧
    decs k es = (if k = Counter.active_sessions then 1 else 0) := by
  subst h
  cases ssl <;> cases k <;> simp [incs, decs, List.count_cons]

/-- C7. A session, plain or TLS, whose connect step ends with an error (a
timeout is one) performs no increment of `connected_sessions`,
`success_requests` or `failed_requests`; run from counters holding `uint32_t`
values, it leaves these three, `success_sessions` and `active_sessions` at
their old values and increments `failed_sessions` once, which makes it one
higher unless it stood at `2 ^ 32 - 1`. -/
theorem connect_failure_frame (ssl : Bool) (n : Nat) (o : Outcomes) (ec : ErrorCode)
    (c : Counters) (hconn : Event.io Op.connect ec ∈ session ssl n o)
    (hec : ec ≠ ErrorCode.success) (hc : c.InRange) :
    incs Counter.connected_sessions (session ssl n o) = 0 ∧
    incs Counter.success_requests (session ssl n o) = 0 ∧
    incs Counter.failed_requests (session ssl n o) = 0 ∧
    incs Counter.success_sessions (session ssl n o) = 0 ∧
    incs Counter.failed_sessions (session ssl n o) = 1 ∧
    (c.applyAll (session ssl n o)).connected_sessions = c.connected_sessions ∧
    (c.applyAll (session ssl n o)).success_requests = c.success_requests ∧
    (c.applyAll (session ssl n o)).failed_requests = c.failed_requests ∧
    (c.applyAll (session ssl n o)).success_sessions = c.success_sessions ∧
    (c.applyAll (session ssl n o)).failed_sessions = incr32 c.failed_sessions ∧
    (c.failed_sessions < 4294967295 →
      (c.applyAll (session ssl n o)).failed_sessions = c.failed_sessions + 1) ∧
    (c.applyAll (session ssl n o)).active_sessions = c.active_sessions := by
  rcases session_cases ssl n o with ⟨_, _, h⟩ | ⟨_, _, h⟩ | ⟨_, _, _, _, h⟩ | ⟨_, h⟩ | ⟨_, h⟩
  · rw [h] at hconn
    simp at hconn
  · obtain ⟨r1, r2, r3, r4, r5, r6⟩ := inRange_fields c hc
    obtain ⟨f1, f2, f3, f4, f5, f6⟩ := applyAll_fields (session ssl n o) c hc
    have p := connect_failed_counts ssl o (session ssl n o) h
    have p1 := p Counter.active_sessions
    have p2 := p Counter.connected_sessions
    have p3 := p Counter.success_sessions
    have p4 := p Counter.failed_sessions
    have p5 := p Counter.success_requests
    have p6 := p Counter.failed_requests
    simp only [reduceCtorEq, or_false, false_or, or_self, if_true, if_false, true_or,
      or_true] at p1 p2 p3 p4 p5 p6
    rw [p1.1, p1.2] at f1
    rw [p2.1, p2.2] at f2
    rw [p3.1, p3.2] at f3
    rw [p4.1, p4.2] at f4
    rw [p5.1, p5.2] at f5
    rw [p6.1, p6.2] at f6
    unfold incr32
    refine ⟨p2.1, p5.1, p6.1, p3.1, p4.1, ?_, ?_, ?_, ?_, ?_, ?_, ?_⟩ <;> omega
  · rw [h] at hconn
    simp at hconn
    exact absurd hconn hec
  · rw [h] at hconn
    have hl := not_mem_requestLoop o n 0 (Event.io Op.connect ec) rfl
    cases ssl <;> simp [connectedHead, hl] at hconn <;> exact absurd hconn hec
  · rw [h] at hconn
    have hl := not_mem_requestLoop o n 0 (Event.io Op.connect ec) rfl
    cases ssl <;> simp [connectedHead, hl] at hconn <;> exact absurd hconn hec

/-- C7, instance: a plain session of three requests whose connection is
refused, run from zeroed counters. -/
theorem connect_failure_frame_witness :
    Event.io Op.connect (ErrorCode.other 111) ∈ session false 3 refusedOutcomes ∧
    incs Counter.connected_sessions (session false 3 refusedOutcomes) = 0 ∧
    (Counters.zero.applyAll (session false 3 refusedOutcomes)).failed_sessions = 1 ∧
    (Counters.zero.applyAll (session false 3 refusedOutcomes)).active_sessions = 0 :=
  have h := connect_failure_frame false 3 refusedOutcomes (ErrorCode.other 111)
    Counters.zero (by decide) (by decide) zero_inRange
  ⟨by decide, h.1, h.2.2.2.2.2.2.2.2.2.2.1 (by norm_num [Counters.zero]), h.2.2.2.2.2.2.2.2.2.2.2⟩

theorem requestLoop_last (o : Outcomes) (left i : Nat)
    (h : (requestLoop o (left + 1) i).1 = true) :
    ∃ pre, (requestLoop o (left + 1) i).2 =
      pre ++ [Event.io (Op.read (i + left)) ErrorCode.success,
        Event.inc Counter.success_requests,
        Event.wait Timer.pacing (100 + o.pacingRand (i + left) % 3000)
          (o.pacing (i + left))] := by
  induction left generalizing i with
  | zero =>
    rw [requestLoop_succ] at h ⊢
    by_cases hr : (doRequest o i).1 = false
    · rw [if_pos hr] at h; simp at h
    · rw [if_neg hr] at h ⊢
      by_cases hp : o.pacing i = ErrorCode.operation_aborted
      · rw [if_pos hp] at h; simp at h
      · rw [if_neg hp]
        obtain ⟨_, _, h2⟩ := doRequest_true o i (by simpa using hr)
        exact ⟨[Event.io (Op.write i) ErrorCode.success], by simp [h2, requestLoop]⟩
  | succ left ih =>
    rw [requestLoop_succ] at h ⊢
    by_cases hr : (doRequest o i).1 = false
    · rw [if_pos hr] at h; simp at h
    · rw [if_neg hr] at h ⊢
      by_cases hp : o.pacing i = ErrorCode.operation_aborted
      · rw [if_pos hp] at h; simp at h
      · rw [if_neg hp] at h ⊢
        obtain ⟨pre, hpre⟩ := ih (i + 1) h
        refine ⟨(doRequest o i).2 ++
          [Event.wait Timer.pacing (100 + o.pacingRand i % 3000) (o.pacing i)] ++ pre, ?_⟩
        simp only [hpre]
        have e : i + 1 + left = i + (left + 1) := by omega
        rw [e]
        simp

/-! ## Single sessions: shutdown, failed requests, pacing -/

/-- C6. A session that reaches the shutdown step increments `success_sessions`
once and `failed_sessions` not at all exactly when the shutdown reports no
error or the benign error of its transport (`not_connected` in `do_session`,
`eof` in `do_ssl_session`); on every other shutdown error it increments
`failed_sessions` once and `success_sessions` not at all. -/
theorem shutdown_classification (ssl : Bool) (n : Nat) (o : Outcomes) (ec : ErrorCode)
    (h : Event.io Op.shutdown ec ∈ session ssl n o) :
    ((incs Counter.success_sessions (session ssl n o) = 1 ∧
        incs Counter.failed_sessions (session ssl n o) = 0) ↔
      (ec = ErrorCode.success ∨
        ec = (if ssl then ErrorCode.eof else ErrorCode.not_connected))) ∧
    (¬ (ec = ErrorCode.success ∨
        ec = (if ssl then ErrorCode.eof else ErrorCode.not_connected)) →
      incs Counter.failed_sessions (session ssl n o) = 1 ∧
      incs Counter.success_sessions (session ssl n o) = 0) := by
  obtain ⟨rfl, hf, e⟩ := shutdown_mem ssl n o ec h
  obtain ⟨_, _, a3, _, _, _, a7, _, a9, _⟩ := requestLoop_counts o n 0
  obtain ⟨b1, _, _⟩ := a9 hf
  have cS := (shutdown_counts ssl o _ _ _ e Counter.success_sessions).1
  have cF := (shutdown_counts ssl o _ _ _ e Counter.failed_sessions).1
  rw [a3] at cS
  rw [a7, b1] at cF
  by_cases hs : shutdownFails ssl o.shutdown
  · have hn := (shutdownFails_iff ssl o.shutdown).1 hs
    simp only [hs, if_true, reduceCtorEq, or_false, false_or, or_self, if_false] at cS cF
    rw [cS, cF]
    simp [hn]
  · have hn : o.shutdown = ErrorCode.success ∨
        o.shutdown = (if ssl then ErrorCode.eof else ErrorCode.not_connected) := by
      by_contra hc
      exact hs ((shutdownFails_iff ssl o.shutdown).2 hc)
    simp only [hs, if_true, reduceCtorEq, or_false, false_or, or_self, if_false] at cS cF
    rw [cS, cF]
    simp [hn]

/-- C6, instance: a plain session of two requests whose shutdown reports
`not_connected` counts as a success. -/
theorem shutdown_classification_witness :
    Event.io Op.shutdown ErrorCode.not_connected ∈ session false 2 goneOutcomes ∧
    incs Counter.success_sessions (session false 2 goneOutcomes) = 1 ∧
    incs Counter.failed_sessions (session false 2 goneOutcomes) = 0 :=
  have h := shutdown_classification false 2 goneOutcomes ErrorCode.not_connected (by decide)
  ⟨by decide, h.1.2 (Or.inr rfl)⟩

/-- C4. In a session of `n` requests that connects (and, for TLS, completes
the handshake), whose first `k < n` requests succeed on send and receive and
whose request `k + 1` (loop index `k`) is made and fails on send or on
receive, exactly `k + 1` requests are attempted, none with a loop index above
`k`, and the session increments `success_requests` `k` times,
`failed_requests` once, `failed_sessions` once and `success_sessions` never;
on counters holding `uint32_t` values this is `success_requests += k`,
`failed_requests += 1`, `failed_sessions += 1` in `uint32_t` arithmetic, with
`success_sessions` unchanged. The success of the connection and of the first
`k` requests is implied by the failing request being made. -/
theorem request_failure_contribution (ssl : Bool) (n k : Nat) (o : Outcomes) (c : Counters)
    (hk : k < n)
    (hconn : Event.io Op.connect ErrorCode.success ∈ session ssl n o)
    (hhand : ssl = true → Event.io Op.handshake ErrorCode.success ∈ session ssl n o)
    (hfirst : ∀ j, j < k →
      Event.io (Op.write j) ErrorCode.success ∈ session ssl n o ∧
      Event.io (Op.read j) ErrorCode.success ∈ session ssl n o)
    (hfail : ∃ ec, ec ≠ ErrorCode.success ∧
      (Event.io (Op.write k) ec ∈ session ssl n o ∨
       Event.io (Op.read k) ec ∈ session ssl n o))
    (hc : c.InRange) :
    attempts (session ssl n o) = k + 1 ∧
    (∀ j ec, k < j → Event.io (Op.write j) ec ∉ session ssl n o) ∧
    incs Counter.success_requests (session ssl n o) = k ∧
    incs Counter.failed_requests (session ssl n o) = 1 ∧
    incs Counter.failed_sessions (session ssl n o) = 1 ∧
    incs Counter.success_sessions (session ssl n o) = 0 ∧
    (c.applyAll (session ssl n o)).success_requests =
      (c.success_requests + k) % 4294967296 ∧
    (c.applyAll (session ssl n o)).failed_requests =
      (c.failed_requests + 1) % 4294967296 ∧
    (c.applyAll (session ssl n o)).failed_sessions =
      (c.failed_sessions + 1) % 4294967296 ∧
    (c.applyAll (session ssl n o)).success_sessions = c.success_sessions := by
  obtain ⟨ec, hec, hm⟩ := hfail
  have key : (o.write k ≠ ErrorCode.success ∨ o.read k ≠ ErrorCode.success) ∧
      (requestLoop o n 0).1 = false ∧
      incs Counter.success_requests (requestLoop o n 0).2 = k ∧
      incs Counter.failed_requests (requestLoop o n 0).2 = 1 ∧
      attempts (requestLoop o n 0).2 = k + 1 ∧
      session ssl n o = connectedHead ssl o ++ (requestLoop o n 0).2 ++
        [Event.dec Counter.connected_sessions, Event.dec Counter.active_sessions] := by
    have hfail' : o.write (0 + k) ≠ ErrorCode.success ∨
        o.read (0 + k) ≠ ErrorCode.success := by
      rw [Nat.zero_add]
      rcases hm with hw | hr
      · obtain ⟨hin, _⟩ := request_mem ssl n o (Event.io (Op.write k) ec) (Or.inl rfl) hw
        obtain ⟨_, _, e1, _⟩ := requestLoop_write_mem o n 0 k ec hin
        exact Or.inl (e1 ▸ hec)
      · obtain ⟨hin, _⟩ := request_mem ssl n o (Event.io (Op.read k) ec) (Or.inr ⟨k, ec, rfl⟩) hr
        obtain ⟨_, _, e1, _, _⟩ := requestLoop_read_mem o n 0 k ec hin
        exact Or.inr (e1 ▸ hec)
    have hpace : ∀ j, 0 ≤ j → j < k → o.write j = ErrorCode.success ∧
        o.read j = ErrorCode.success ∧ o.pacing j ≠ ErrorCode.operation_aborted := by
      rcases hm with hw | hr
      · obtain ⟨hin, _⟩ := request_mem ssl n o (Event.io (Op.write k) ec) (Or.inl rfl) hw
        exact (requestLoop_write_mem o n 0 k ec hin).2.2.2
      · obtain ⟨hin, _⟩ := request_mem ssl n o (Event.io (Op.read k) ec) (Or.inr ⟨k, ec, rfl⟩) hr
        exact (requestLoop_read_mem o n 0 k ec hin).2.2.2.2
    obtain ⟨c1, c2, c3, c4⟩ := requestLoop_fail_at o n 0 k hk
      (fun j h1 h2 => hpace j h1 (by omega)) hfail'
    have hpath : session ssl n o = connectedHead ssl o ++ (requestLoop o n 0).2 ++
        [Event.dec Counter.connected_sessions, Event.dec Counter.active_sessions] := by
      have hsome : ∃ e, (e.isWrite = true ∨ ∃ m ec, e = Event.io (Op.read m) ec) ∧
          e ∈ session ssl n o := by
        rcases hm with hw | hr
        · exact ⟨Event.io (Op.write k) ec, Or.inl rfl, hw⟩
        · exact ⟨Event.io (Op.read k) ec, Or.inr ⟨k, ec, rfl⟩, hr⟩
      obtain ⟨e, he, hmem⟩ := hsome
      rcases (request_mem ssl n o e he hmem).2 with ⟨_, e4⟩ | ⟨ht, _⟩
      · exact e4
      · rw [c1] at ht
        exact Bool.noConfusion ht
    exact ⟨by rw [Nat.zero_add] at hfail'; exact hfail', c1, c2, c3, c4, hpath⟩
  obtain ⟨hbad, _, c2, c3, c4, hpath⟩ := key
  have hnone : ∀ j ec, k < j → Event.io (Op.write j) ec ∉ session ssl n o := by
    intro j ec' hj hmem
    obtain ⟨hin, _⟩ := request_mem ssl n o (Event.io (Op.write j) ec') (Or.inl rfl) hmem
    obtain ⟨hw, hr, _⟩ := (requestLoop_write_mem o n 0 j ec' hin).2.2.2 k (Nat.zero_le _) hj
    rcases hbad with h | h
    · exact h hw
    · exact h hr
  obtain ⟨_, _, a3, a4, _, _, a7, _, _, _⟩ := requestLoop_counts o n 0
  have p := returned_counts ssl o _ _ hpath
  have p3 := p Counter.success_sessions
  have p4 := p Counter.failed_sessions
  have p5 := p Counter.success_requests
  have p6 := p Counter.failed_requests
  simp only [reduceCtorEq, or_false, false_or, or_self, if_true, if_false, true_or,
    or_true, a3, a4, a7, c2, c3, c4] at p3 p4 p5 p6
  obtain ⟨r1, r2, r3, r4, r5, r6⟩ := inRange_fields c hc
  obtain ⟨f1, f2, f3, f4, f5, f6⟩ := applyAll_fields (session ssl n o) c hc
  rw [p3.1, p3.2.1] at f3
  rw [p4.1, p4.2.1] at f4
  rw [p5.1, p5.2.1] at f5
  rw [p6.1, p6.2.1] at f6
  refine ⟨p3.2.2.1, hnone, p5.1.trans (by omega), p6.1.trans (by omega),
    p4.1.trans (by omega), p3.1.trans (by omega), ?_, ?_, ?_, ?_⟩ <;> omega

/-- C4, instance (scenario C): the server answers the first request of a plain
session of three and closes the connection before the second response. -/
theorem request_failure_contribution_witness :
    attempts (session false 3 closedAfterFirst) = 2 ∧
    (Counters.zero.applyAll (session false 3 closedAfterFirst)).success_requests = 1 ∧
    (Counters.zero.applyAll (session false 3 closedAfterFirst)).failed_requests = 1 ∧
    (Counters.zero.applyAll (session false 3 closedAfterFirst)).failed_sessions = 1 ∧
    (Counters.zero.applyAll (session false 3 closedAfterFirst)).success_sessions = 0 :=
  have h := request_failure_contribution false 3 1 closedAfterFirst Counters.zero
    (by decide) (by decide) (fun e => Bool.noConfusion e)
    (fun j hj => by
      have e : j = 0 := by omega
      subst e
      exact ⟨by decide, by decide⟩)
    ⟨ErrorCode.eof, by decide, Or.inr (by decide)⟩ zero_inRange
  ⟨h.1, h.2.2.2.2.2.2.1, h.2.2.2.2.2.2.2.1, h.2.2.2.2.2.2.2.2.1, h.2.2.2.2.2.2.2.2.2⟩

/-- C8, as stated, fails: a plain or TLS session of one request that succeeds
reaches the linger wait after one pacing wait, not after `1 - 1 = 0`, and the
pacing wait stands between the request and the linger wait. -/
theorem pacing_waits_counterexample :
    (Event.wait Timer.linger 2500 ErrorCode.success ∈ do_session 1 okOutcomes ∧
      pacingWaits (do_session 1 okOutcomes) = 1 ∧
      pacingWaits (do_session 1 okOutcomes) ≠ 1 - 1 ∧
      do_session 1 okOutcomes =
        [Event.wait Timer.jitter 0 ErrorCode.success, Event.inc Counter.active_sessions,
         Event.io Op.connect ErrorCode.success, Event.inc Counter.connected_sessions,
         Event.io (Op.write 0) ErrorCode.success, Event.io (Op.read 0) ErrorCode.success,
         Event.inc Counter.success_requests,
         Event.wait Timer.pacing 100 ErrorCode.success,
         Event.wait Timer.linger 2500 ErrorCode.success,
         Event.io Op.shutdown ErrorCode.success, Event.inc Counter.success_sessions,
         Event.dec Counter.connected_sessions, Event.dec Counter.active_sessions]) ∧
    (Event.wait Timer.linger 2500 ErrorCode.success ∈ do_ssl_session 1 okOutcomes ∧
      pacingWaits (do_ssl_session 1 okOutcomes) = 1 ∧
      pacingWaits (do_ssl_session 1 okOutcomes) ≠ 1 - 1) := by
  decide

/-- C8, amended. A session that runs all `n >= 1` iterations of its request
loop to the end (it reaches the linger wait) performs exactly `n` pacing
waits: a wait of `100 + rand() % 3000` ms, between 100 and 3099 ms, follows
every request, the last one included, so the last request is followed by a
pacing wait and only then by the fixed 2500 ms linger wait. -/
theorem pacing_after_every_request (ssl : Bool) (n ms : Nat) (o : Outcomes) (ec : ErrorCode)
    (hn : 1 ≤ n) (h : Event.wait Timer.linger ms ec ∈ session ssl n o) :
    pacingWaits (session ssl n o) = n ∧
    100 ≤ 100 + o.pacingRand (n - 1) % 3000 ∧ 100 + o.pacingRand (n - 1) % 3000 < 3100 ∧
    ∃ pre post, session ssl n o =
      pre ++ [Event.io (Op.read (n - 1)) ErrorCode.success,
        Event.inc Counter.success_requests,
        Event.wait Timer.pacing (100 + o.pacingRand (n - 1) % 3000) (o.pacing (n - 1)),
        Event.wait Timer.linger 2500 o.linger] ++ post := by
  obtain ⟨hf, e⟩ := linger_mem ssl n o ms ec h
  obtain ⟨_, _, _, _, _, _, _, _, a9, _⟩ := requestLoop_counts o n 0
  obtain ⟨_, _, b3⟩ := a9 hf
  refine ⟨?_, by omega, by omega, ?_⟩
  · rw [(shutdown_counts ssl o _ _ _ e Counter.active_sessions).2.2.2, b3]
  · obtain ⟨m, rfl⟩ : ∃ m, n = m + 1 := ⟨n - 1, by omega⟩
    obtain ⟨pre, hpre⟩ := requestLoop_last o m 0 hf
    rw [Nat.zero_add] at hpre
    refine ⟨connectedHead ssl o ++ pre,
      [Event.io Op.shutdown o.shutdown,
       Event.inc (if shutdownFails ssl o.shutdown then Counter.failed_sessions
        else Counter.success_sessions),
       Event.dec Counter.connected_sessions, Event.dec Counter.active_sessions], ?_⟩
    rw [e, hpre]
    simp

/-- C8 amended, instance: a plain session of three requests that all succeed
performs three pacing waits. -/
theorem pacing_after_every_request_witness :
    Event.wait Timer.linger 2500 ErrorCode.success ∈ session false 3 okOutcomes ∧
    pacingWaits (session false 3 okOutcomes) = 3 :=
  ⟨by decide,
   (pacing_after_every_request false 3 2500 okOutcomes ErrorCode.success (by decide)
     (by decide)).1⟩

/-! ## URL split -/

theorem find_none (c : Char) (l : List Char) (h : c ∉ l) : find c l = none := by
  induction l with
  | nil => rfl
  | cons x xs ih =>
    simp only [List.mem_cons, not_or] at h
    have hx : ¬ x = c := fun e => h.1 e.symm
    simp [find, hx, ih h.2]

theorem find_append_cons (c : Char) (l r : List Char) (h : c ∉ l) :
    find c (l ++ c :: r) = some l.length := by
  induction l with
  | nil => simp [find]
  | cons x xs ih =>
    simp only [List.mem_cons, not_or] at h
    have hx : ¬ x = c := fun e => h.1 e.symm
    simp [find, hx, ih h.2]

/-- C9. The URL split of `main` parses `host[:port][/path]`: for a host `h`
without `:` and `/`, a port `p` without `/`, a path `t` that begins with `/`
and either value of the `ssl` switch, the arguments `h`, `h:p`, `h` followed
by `t`, and `h:p` followed by `t` give host `h`, port `p` when one is given
and otherwise `443` with `ssl` and `80` without, and target `t` when a path
is given and otherwise `/`. -/
theorem parseUrl_spec (ssl : Bool) (h p t : List Char)
    (hcolon : ':' ∉ h) (hslash : '/' ∉ h) (hp : '/' ∉ p) (ht : ∃ r, t = '/' :: r) :
    parseUrl ssl h = ⟨h, if ssl then "443".toList else "80".toList, "/".toList⟩ ∧
    parseUrl ssl (h ++ ':' :: p) = ⟨h, p, "/".toList⟩ ∧
    parseUrl ssl (h ++ t) = ⟨h, if ssl then "443".toList else "80".toList, t⟩ ∧
    parseUrl ssl (h ++ ':' :: p ++ t) = ⟨h, p, t⟩ := by
  obtain ⟨r, rfl⟩ := ht
  have hne : ¬ ('/' = ':') := by decide
  have hhp : '/' ∉ h ++ ':' :: p := by
    simp [hslash, hp, hne]
  refine ⟨?_, ?_, ?_, ?_⟩
  · simp [parseUrl, find_none _ _ hslash, find_none _ _ hcolon]
  · simp [parseUrl, find_none _ _ hhp, find_append_cons _ _ _ hcolon]
  · simp [parseUrl, find_append_cons _ _ _ hslash, find_none _ _ hcolon]
  · obtain ⟨u, hu⟩ : ∃ u, u = h ++ ':' :: p := ⟨_, rfl⟩
    rw [← hu] at hhp ⊢
    have e1 : find '/' (u ++ '/' :: r) = some u.length := find_append_cons _ _ _ hhp
    have e2 : find ':' u = some h.length := by
      rw [hu]; exact find_append_cons _ _ _ hcolon
    have e3 : List.take u.length (u ++ '/' :: r) = u := by simp
    have e4 : List.drop u.length (u ++ '/' :: r) = '/' :: r := by simp
    simp only [parseUrl, e1, e2, e3, e4]
    rw [hu]
    simp

/-- C9, instance: `example.org`, port `8080`, path `/index.html`, with the
`ssl` switch set. -/
theorem parseUrl_spec_witness :
    parseUrl true "example.org".toList = ⟨"example.org".toList, "443".toList, "/".toList⟩ ∧
    parseUrl true "example.org:8080/index.html".toList =
      ⟨"example.org".toList, "8080".toList, "/index.html".toList⟩ :=
  have h := parseUrl_spec true "example.org".toList "8080".toList "/index.html".toList
    (by decide) (by decide) (by decide) ⟨"index.html".toList, by decide⟩
  ⟨h.1, h.2.2.2⟩

/-! ## Runs: the invariant -/

theorem total_cons (f : List Event → Nat) (p : Proc) (ps : List Proc) :
    total f (p :: ps) = f p.done + total f ps := by
  simp [total]

theorem stepProc_spec (i : Nat) (ps ps' : List Proc) (e : Event)
    (h : stepProc i ps = some (e, ps')) :
    ps'.map Proc.full = ps.map Proc.full ∧
    (∀ k, total (incs k) ps' = total (incs k) ps + if e = Event.inc k then 1 else 0) ∧
    (∀ k, total (decs k) ps' = total (decs k) ps + if e = Event.dec k then 1 else 0) := by
  induction ps generalizing i ps' with
  | nil => simp [stepProc] at h
  | cons p ps ih =>
    cases i with
    | zero =>
      cases hp : p.todo with
      | nil => simp [stepProc, hp] at h
      | cons e' rest =>
        simp only [stepProc, hp, Option.some.injEq, Prod.mk.injEq] at h
        obtain ⟨rfl, rfl⟩ := h
        refine ⟨?_, ?_, ?_⟩
        · simp [Proc.full, hp]
        · intro k
          simp only [total_cons, incs_append, incs_cons]
          simp [incs]
          omega
        · intro k
          simp only [total_cons, decs_append, decs_cons]
          simp [decs]
          omega
    | succ i =>
      cases hs : stepProc i ps with
      | none => simp [stepProc, hs] at h
      | some r =>
        obtain ⟨e', ps''⟩ := r
        simp only [stepProc, hs, Option.some.injEq, Prod.mk.injEq] at h
        obtain ⟨rfl, rfl⟩ := h
        obtain ⟨h1, h2, h3⟩ := ih i ps'' hs
        refine ⟨?_, ?_, ?_⟩
        · simp [h1]
        · intro k
          rw [total_cons, total_cons, h2 k]
          omega
        · intro k
          rw [total_cons, total_cons, h3 k]
          omega

theorem step_session_none (s : RunState) (i : Nat) (h : stepProc i s.procs = none) :
    step s (Tick.session i) = s := by
  simp [step, h]

theorem step_session_some (s : RunState) (i : Nat) (e : Event) (ps : List Proc)
    (h : stepProc i s.procs = some (e, ps)) :
    step s (Tick.session i) = ⟨s.counters.apply e, ps, s.reporterExited⟩ := by
  simp [step, h]

theorem step_inv (ts : List (List Event)) (s : RunState) (t : Tick) (h : Inv ts s) :
    Inv ts (step s t) := by
  cases t with
  | reporter =>
    unfold step
    split_ifs
    · exact h
    · exact h
  | session i =>
    cases hs : stepProc i s.procs with
    | none =>
      rw [step_session_none s i hs]
      exact h
    | some r =>
      obtain ⟨e, ps⟩ := r
      rw [step_session_some s i e ps hs]
      obtain ⟨h1, h2, h3⟩ := stepProc_spec i s.procs ps e hs
      refine ⟨by simpa [h1] using h.1, ?_⟩
      intro k
      have hk := h.2 k
      simp only
      rw [get_apply, hk, h2 k, h3 k]
      unfold incr32 decr32
      by_cases e1 : e = Event.inc k
      · subst e1; simp; omega
      · by_cases e2 : e = Event.dec k
        · subst e2; simp; omega
        · simp [e1, e2]

theorem foldl_inv (ts : List (List Event)) (sched : List Tick) (s : RunState) (h : Inv ts s) :
    Inv ts (sched.foldl step s) := by
  induction sched generalizing s with
  | nil => exact h
  | cons t sched ih => exact ih _ (step_inv ts s t h)

theorem total_spawn (f : List Event → Nat) (hf : f [] = 0) (ssl : Bool)
    (requests count : Nat) (env : Nat → Outcomes) :
    total f (spawnSessions ssl requests count env) = 0 := by
  simp [total, spawnSessions, hf, Function.comp_def]

theorem initial_inv (ssl : Bool) (requests count : Nat) (env : Nat → Outcomes) :
    Inv (traces ssl requests count env) (initial ssl requests count env) := by
  refine ⟨?_, ?_⟩
  · simp [initial, spawnSessions, traces, Proc.full, Function.comp_def]
  · intro k
    have h1 := total_spawn (incs k) (by simp [incs]) ssl requests count env
    have h2 := total_spawn (decs k) (by simp [decs]) ssl requests count env
    simp only [initial]
    rw [h1, h2]
    cases k <;> simp [Counters.zero, Counters.get]

/-- Every state of a run satisfies the invariant. -/
theorem run_inv (ssl : Bool) (requests count : Nat) (env : Nat → Outcomes)
    (sched : List Tick) :
    Inv (traces ssl requests count env) (run ssl requests count env sched) :=
  foldl_inv _ sched _ (initial_inv ssl requests count env)

/-! ## Where a session stands: `active_sessions` and `connected_sessions` -/

theorem filter_isAC_requestLoop (o : Outcomes) (n i : Nat) :
    (requestLoop o n i).2.filter Event.isAC = [] := by
  rw [List.filter_eq_nil_iff]
  intro e he
  have h := requestLoop_inLoop o n i e he
  cases e with
  | inc k => cases k <;> simp [Event.inLoop] at h <;> simp [Event.isAC]
  | dec k => simp [Event.inLoop] at h
  | wait t ms ec => simp [Event.isAC]
  | sni ok => simp [Event.isAC]
  | io op ec => simp [Event.isAC]

/-- A session changes `active_sessions` and `connected_sessions` in one of
two orders: up and down, or up, up, down, down. -/
theorem filter_isAC_session (ssl : Bool) (n : Nat) (o : Outcomes) :
    (session ssl n o).filter Event.isAC =
      [Event.inc Counter.active_sessions, Event.dec Counter.active_sessions] ∨
    (session ssl n o).filter Event.isAC =
      [Event.inc Counter.active_sessions, Event.inc Counter.connected_sessions,
       Event.dec Counter.connected_sessions, Event.dec Counter.active_sessions] := by
  have hl := filter_isAC_requestLoop o n 0
  rcases session_cases ssl n o with ⟨_, _, e⟩ | ⟨_, _, e⟩ | ⟨_, _, _, _, e⟩ | ⟨_, e⟩ | ⟨_, e⟩
  · left; rw [e]; simp [List.filter_cons, Event.isAC]
  · left; rw [e]; cases ssl <;> simp [List.filter_cons, Event.isAC]
  · left; rw [e]; simp [List.filter_cons, Event.isAC]
  · right; rw [e]
    rw [List.filter_append, List.filter_append, hl]
    cases ssl <;> simp [connectedHead, List.filter_cons, Event.isAC]
  · right; rw [e]
    rw [List.filter_append, List.filter_append, List.filter_append, List.filter_append, hl]
    have hx : ∀ b : Bool, Event.isAC (Event.inc (if shutdownFails b o.shutdown
        then Counter.failed_sessions else Counter.success_sessions)) = false := by
      intro b
      split_ifs <;> rfl
    cases ssl <;> simp [connectedHead, List.filter_cons, hx] <;> simp [Event.isAC]

/-- A session starts with the jitter wait and the increment of
`active_sessions`, and ends with the decrement of `active_sessions`. -/
theorem session_ends (ssl : Bool) (n : Nat) (o : Outcomes) :
    (∃ rest, session ssl n o =
      Event.wait Timer.jitter (o.jitterRand % 2000) o.jitter ::
        Event.inc Counter.active_sessions :: rest) ∧
    (∃ body, session ssl n o = body ++ [Event.dec Counter.active_sessions]) := by
  cases ssl
  · exact ⟨⟨_, by simp only [session, do_session]; rfl⟩,
      ⟨_, by simp only [session, do_session]; rfl⟩⟩
  · exact ⟨⟨_, by simp only [session, do_ssl_session]; rfl⟩,
      ⟨_, by simp only [session, do_ssl_session]; rfl⟩⟩

theorem split_take_drop {α : Type} (x y l : List α) (h : x ++ y = l) :
    ∃ m, m ≤ l.length ∧ x = l.take m ∧ y = l.drop m := by
  subst h
  exact ⟨x.length, by simp, by simp, by simp⟩

theorem incs_filter_isAC (k : Counter) (hk : k = Counter.active_sessions ∨
    k = Counter.connected_sessions) (d : List Event) :
    incs k d = incs k (d.filter Event.isAC) := by
  unfold incs
  rw [List.count_filter]
  rcases hk with rfl | rfl <;> rfl

theorem decs_filter_isAC (k : Counter) (hk : k = Counter.active_sessions ∨
    k = Counter.connected_sessions) (d : List Event) :
    decs k d = decs k (d.filter Event.isAC) := by
  unfold decs
  rw [List.count_filter]
  rcases hk with rfl | rfl <;> rfl

/-- At every point of a session: `active_sessions` is incremented at most
once and before `connected_sessions`, `connected_sessions` is decremented
before `active_sessions`, and the session holds its unit of `active_sessions`
exactly from the end of the jitter wait (two events performed) to its last
event. -/
theorem session_point (ssl : Bool) (n : Nat) (o : Outcomes) (d t : List Event)
    (h : d ++ t = session ssl n o) :
    decs Counter.active_sessions d ≤ incs Counter.active_sessions d ∧
    incs Counter.active_sessions d ≤ 1 ∧
    decs Counter.connected_sessions d ≤ incs Counter.connected_sessions d ∧
    incs Counter.connected_sessions d + decs Counter.active_sessions d ≤
      incs Counter.active_sessions d + decs Counter.connected_sessions d ∧
    incs Counter.active_sessions d =
      decs Counter.active_sessions d + (if 2 ≤ d.length ∧ t ≠ [] then 1 else 0) ∧
    incs Counter.connected_sessions d ≤ incs Counter.active_sessions d := by
  have hf : d.filter Event.isAC ++ t.filter Event.isAC =
      (session ssl n o).filter Event.isAC := by
    rw [← List.filter_append, h]
  obtain ⟨⟨rest, hstart⟩, ⟨body, hend⟩⟩ := session_ends ssl n o
  -- nothing counted yet: at most the jitter wait has been performed
  have hshort : d.filter Event.isAC = [] → ¬ (2 ≤ d.length) := by
    intro he hlen
    rcases d with _ | ⟨a, _ | ⟨b, d'⟩⟩
    · simp at hlen
    · simp at hlen
    · rw [hstart] at h
      simp only [List.cons_append, List.cons.injEq] at h
      obtain ⟨_, rfl, _⟩ := h
      have hm : Event.inc Counter.active_sessions ∈
          (a :: Event.inc Counter.active_sessions :: d').filter Event.isAC :=
        List.mem_filter.2 ⟨by simp, rfl⟩
      rw [he] at hm
      simp at hm
  -- the increment of `active_sessions` is the second event
  have hlong : Event.inc Counter.active_sessions ∈ d.filter Event.isAC → 2 ≤ d.length := by
    intro hm
    have hm' : Event.inc Counter.active_sessions ∈ d := (List.mem_filter.1 hm).1
    rcases d with _ | ⟨a, _ | ⟨b, d'⟩⟩
    · simp at hm'
    · rw [hstart] at h
      simp only [List.cons_append, List.cons.injEq] at h
      obtain ⟨rfl, _⟩ := h
      simp at hm'
    · simp
  -- the decrement of `active_sessions` is the last event
  have hlast : t.filter Event.isAC = [] → t = [] := by
    intro he
    by_contra hne
    have h1 : (d ++ t).getLast (by simp [hne]) = t.getLast hne :=
      List.getLast_append_right hne
    have h2 : (d ++ t).getLast (by simp [hne]) = Event.dec Counter.active_sessions := by
      have : (body ++ [Event.dec Counter.active_sessions]).getLast (by simp) =
          Event.dec Counter.active_sessions := by simp
      rw [← this]
      congr 1
      rw [h, hend]
    have h3 : Event.dec Counter.active_sessions ∈ t := by
      rw [← h2, h1]
      exact List.getLast_mem hne
    have h4 : Event.dec Counter.active_sessions ∈ t.filter Event.isAC :=
      List.mem_filter.2 ⟨h3, rfl⟩
    rw [he] at h4
    simp at h4
  rw [incs_filter_isAC Counter.active_sessions (Or.inl rfl) d,
    decs_filter_isAC Counter.active_sessions (Or.inl rfl) d,
    incs_filter_isAC Counter.connected_sessions (Or.inr rfl) d,
    decs_filter_isAC Counter.connected_sessions (Or.inr rfl) d]
  obtain ⟨m, hm, hx, hy⟩ := split_take_drop _ _ _ hf
  rcases filter_isAC_session ssl n o with e | e
  · rw [e] at hx hy hm
    simp only [List.length_cons, List.length_nil] at hm
    interval_cases m
    · simp only [List.take_zero] at hx
      have := hshort hx
      simp [hx, incs, decs, this]
    · simp only [List.take_succ_cons, List.take_zero, List.drop_succ_cons, List.drop_zero] at hx hy
      have h1 := hlong (by simp [hx])
      have h2 : t ≠ [] := by
        intro ht; rw [ht] at hy; simp at hy
      simp [hx, incs, decs, List.count_cons, h1, h2]
    · simp only [List.take_succ_cons, List.take_zero, List.drop_succ_cons, List.drop_zero,
        List.take_nil] at hx hy
      have h2 := hlast hy
      simp [hx, incs, decs, List.count_cons, h2]
  · rw [e] at hx hy hm
    simp only [List.length_cons, List.length_nil] at hm
    interval_cases m
    · simp only [List.take_zero] at hx
      have := hshort hx
      simp [hx, incs, decs, this]
    · simp only [List.take_succ_cons, List.take_zero, List.drop_succ_cons, List.drop_zero] at hx hy
      have h1 := hlong (by simp [hx])
      have h2 : t ≠ [] := by
        intro ht; rw [ht] at hy; simp at hy
      simp [hx, incs, decs, List.count_cons, h1, h2]
    · simp only [List.take_succ_cons, List.take_zero, List.drop_succ_cons, List.drop_zero] at hx hy
      have h1 := hlong (by simp [hx])
      have h2 : t ≠ [] := by
        intro ht; rw [ht] at hy; simp at hy
      simp [hx, incs, decs, List.count_cons, h1, h2]
    · simp only [List.take_succ_cons, List.take_zero, List.drop_succ_cons, List.drop_zero] at hx hy
      have h1 := hlong (by simp [hx])
      have h2 : t ≠ [] := by
        intro ht; rw [ht] at hy; simp at hy
      simp [hx, incs, decs, List.count_cons, h1, h2]
    · simp only [List.take_succ_cons, List.take_zero, List.drop_succ_cons, List.drop_zero,
        List.take_nil] at hx hy
      have h2 := hlast hy
      simp [hx, incs, decs, List.count_cons, h2]

/-! ## Sums over the sessions of a run -/

theorem sum_map_le (ps : List Proc) (f g : Proc → Nat) (h : ∀ p ∈ ps, f p ≤ g p) :
    (ps.map f).sum ≤ (ps.map g).sum := by
  induction ps with
  | nil => simp
  | cons p ps ih =>
    have h1 := h p (by simp)
    have h2 := ih (fun q hq => h q (by simp [hq]))
    simp only [List.map_cons, List.sum_cons]
    omega

theorem sum_map_congr (ps : List Proc) (f g : Proc → Nat) (h : ∀ p ∈ ps, f p = g p) :
    (ps.map f).sum = (ps.map g).sum := by
  induction ps with
  | nil => simp
  | cons p ps ih =>
    have h1 := h p (by simp)
    have h2 := ih (fun q hq => h q (by simp [hq]))
    simp only [List.map_cons, List.sum_cons]
    omega

theorem sum_map_plus (ps : List Proc) (f g : Proc → Nat) :
    (ps.map (fun p => f p + g p)).sum = (ps.map f).sum + (ps.map g).sum := by
  induction ps with
  | nil => simp
  | cons p ps ih =>
    simp only [List.map_cons, List.sum_cons, ih]
    omega

theorem sum_map_indicator (ps : List Proc) (q : Proc → Bool) :
    (ps.map (fun p => if q p = true then 1 else 0)).sum = ps.countP q := by
  induction ps with
  | nil => simp
  | cons p ps ih =>
    simp only [List.map_cons, List.sum_cons, ih, List.countP_cons]
    omega

theorem sum_map_const (ps : List Proc) (c : Nat) :
    (ps.map (fun _ => c)).sum = ps.length * c := by
  induction ps with
  | nil => simp
  | cons p ps ih =>
    simp only [List.map_cons, List.sum_cons, ih, List.length_cons]
    rw [Nat.add_mul]
    omega

theorem inv_length (ssl : Bool) (n count : Nat) (env : Nat → Outcomes) (s : RunState)
    (h : Inv (traces ssl n count env) s) : s.procs.length = count := by
  have := congrArg List.length h.1
  simpa [traces] using this

theorem inv_proc (ssl : Bool) (n count : Nat) (env : Nat → Outcomes) (s : RunState)
    (h : Inv (traces ssl n count env) s) (p : Proc) (hp : p ∈ s.procs) :
    ∃ i, i < count ∧ p.done ++ p.todo = session ssl n (env i) := by
  have h1 : p.full ∈ s.procs.map Proc.full := List.mem_map_of_mem _ hp
  rw [h.1] at h1
  simp only [traces, List.mem_map, List.mem_range] at h1
  obtain ⟨i, hi, e⟩ := h1
  exact ⟨i, hi, e.symm⟩

theorem running_iff (p : Proc) : p.running = true ↔ 2 ≤ p.done.length ∧ p.todo ≠ [] := by
  simp [Proc.running, Proc.started, Proc.returned]

/-- The sums behind `active_sessions` and `connected_sessions` in a state that
satisfies the invariant. -/
theorem inv_sums (ssl : Bool) (n count : Nat) (env : Nat → Outcomes) (s : RunState)
    (h : Inv (traces ssl n count env) s) :
    total (decs Counter.active_sessions) s.procs ≤
      total (incs Counter.active_sessions) s.procs ∧
    total (incs Counter.active_sessions) s.procs ≤ count ∧
    total (decs Counter.connected_sessions) s.procs ≤
      total (incs Counter.connected_sessions) s.procs ∧
    total (incs Counter.connected_sessions) s.procs +
        total (decs Counter.active_sessions) s.procs ≤
      total (incs Counter.active_sessions) s.procs +
        total (decs Counter.connected_sessions) s.procs ∧
    total (incs Counter.active_sessions) s.procs =
      total (decs Counter.active_sessions) s.procs + s.procs.countP Proc.running := by
  have hp : ∀ p ∈ s.procs, _ := fun p hp =>
    let ⟨i, _, e⟩ := inv_proc ssl n count env s h p hp
    session_point ssl n (env i) p.done p.todo e
  refine ⟨?_, ?_, ?_, ?_, ?_⟩
  · exact sum_map_le _ _ _ (fun p m => (hp p m).1)
  · have := sum_map_le s.procs (fun p => incs Counter.active_sessions p.done) (fun _ => 1)
      (fun p m => (hp p m).2.1)
    rw [sum_map_const, inv_length ssl n count env s h] at this
    simpa [total] using this
  · exact sum_map_le _ _ _ (fun p m => (hp p m).2.2.1)
  · have := sum_map_le s.procs
      (fun p => incs Counter.connected_sessions p.done + decs Counter.active_sessions p.done)
      (fun p => incs Counter.active_sessions p.done + decs Counter.connected_sessions p.done)
      (fun p m => (hp p m).2.2.2.1)
    rw [sum_map_plus, sum_map_plus] at this
    exact this
  · have := sum_map_congr s.procs (fun p => incs Counter.active_sessions p.done)
      (fun p => decs Counter.active_sessions p.done + (if p.running = true then 1 else 0))
      (fun p m => by
        have e := (hp p m).2.2.2.2.1
        by_cases hr : p.running = true
        · have hr' := (running_iff p).1 hr
          rw [if_pos hr'] at e
          simp only [hr, if_true]
          exact e
        · have hr' : ¬ (2 ≤ p.done.length ∧ p.todo ≠ []) := fun x => hr ((running_iff p).2 x)
          rw [if_neg hr'] at e
          simp only [hr, if_false]
          exact e)
    rw [sum_map_plus, sum_map_indicator] at this
    exact this

/-! ## Runs: `connected_sessions <= active_sessions <= sessionCount` -/

/-- C3. In every state a run of `count` sessions (`count` below `2 ^ 32`; it
is an `int` in `main`) can reach by any interleaving of session events and
reporter polls, `connected_sessions <= active_sessions <= count`; and at its
current point every session has incremented `active_sessions` at most once and
not after `connected_sessions`, has decremented each counter only after
incrementing it, and has decremented `active_sessions` only after giving back
its unit of `connected_sessions`. -/
theorem connected_le_active_le_count (ssl : Bool) (n count : Nat) (env : Nat → Outcomes)
    (sched : List Tick) (hcount : count < 4294967296) :
    (run ssl n count env sched).counters.connected_sessions ≤
      (run ssl n count env sched).counters.active_sessions ∧
    (run ssl n count env sched).counters.active_sessions ≤ count ∧
    ∀ p ∈ (run ssl n count env sched).procs,
      incs Counter.active_sessions p.done ≤ 1 ∧
      incs Counter.connected_sessions p.done ≤ incs Counter.active_sessions p.done ∧
      decs Counter.active_sessions p.done ≤ incs Counter.active_sessions p.done ∧
      decs Counter.connected_sessions p.done ≤ incs Counter.connected_sessions p.done ∧
      incs Counter.connected_sessions p.done + decs Counter.active_sessions p.done ≤
        incs Counter.active_sessions p.done + decs Counter.connected_sessions p.done := by
  have hinv := run_inv ssl n count env sched
  obtain ⟨s1, s2, s3, s4, _⟩ := inv_sums ssl n count env _ hinv
  have hA := hinv.2 Counter.active_sessions
  have hC := hinv.2 Counter.connected_sessions
  simp only [Counters.get] at hA hC
  refine ⟨?_, ?_, ?_⟩
  · rw [hA, hC]; omega
  · rw [hA]; omega
  · intro p hp
    obtain ⟨i, _, e⟩ := inv_proc ssl n count env _ hinv p hp
    obtain ⟨q1, q2, q3, q4, _, q6⟩ := session_point ssl n (env i) p.done p.todo e
    exact ⟨q2, q6, q1, q3, q4⟩

/-- C3, instance: two TLS sessions, the first stopped after five events, with
the second one not started. -/
theorem connected_le_active_le_count_witness :
    (run true 2 2 (fun _ => okOutcomes)
      [Tick.session 0, Tick.session 0, Tick.session 0, Tick.session 0,
       Tick.session 0]).counters.connected_sessions ≤
    (run true 2 2 (fun _ => okOutcomes)
      [Tick.session 0, Tick.session 0, Tick.session 0, Tick.session 0,
       Tick.session 0]).counters.active_sessions ∧
    (run true 2 2 (fun _ => okOutcomes)
      [Tick.session 0, Tick.session 0, Tick.session 0, Tick.session 0,
       Tick.session 0]).counters.active_sessions = 1 :=
  ⟨(connected_le_active_le_count true 2 2 (fun _ => okOutcomes)
      [Tick.session 0, Tick.session 0, Tick.session 0, Tick.session 0, Tick.session 0]
      (by norm_num)).1, by decide⟩

/-! ## Runs: what `active_sessions == 0` tells the reporter -/

/-- C2, as stated, fails. One plain session with a start-up jitter of 1500 ms:
when the reporter polls first (its timer is 1 s), it reads
`active_sessions == 0` and leaves its loop although the session has not
returned; and after the jitter wait of the session is over, `active_sessions`
is still zero, because `SessionsCounter` is constructed after the wait. -/
theorem active_from_spawn_counterexample :
    (run false 1 1 (fun _ => slowStart) [Tick.reporter]).reporterExited = true ∧
    (run false 1 1 (fun _ => slowStart) [Tick.reporter]).counters.active_sessions = 0 ∧
    ¬ (run false 1 1 (fun _ => slowStart) [Tick.reporter]).Completed ∧
    (run false 1 1 (fun _ => slowStart) [Tick.session 0]).counters.active_sessions = 0 ∧
    (run false 1 1 (fun _ => slowStart) [Tick.session 0]).procs.map Proc.done =
      [[Event.wait Timer.jitter 1500 ErrorCode.success]] ∧
    ¬ (run false 1 1 (fun _ => slowStart) [Tick.session 0]).Completed ∧
    (do_session 1 slowStart).take 2 =
      [Event.wait Timer.jitter 1500 ErrorCode.success, Event.inc Counter.active_sessions] ∧
    (do_ssl_session 1 slowStart).take 2 =
      [Event.wait Timer.jitter 1500 ErrorCode.success, Event.inc Counter.active_sessions] := by
  decide

/-- C2, amended. A session is counted in `active_sessions` from the end of its
start-up jitter wait (when it constructs `SessionsCounter`) until it returns:
in every reachable state of a run of fewer than `2 ^ 32` sessions,
`active_sessions` is the number of sessions that are past the jitter wait and
have not returned. So `active_sessions == 0` implies that every session is
either still in its start-up phase or has returned, and when the reporter
reads zero and leaves its loop no session is between the two; sessions that
still wait to start are not excluded. -/
theorem active_sessions_after_jitter (ssl : Bool) (n count : Nat) (env : Nat → Outcomes)
    (sched : List Tick) (hcount : count < 4294967296) :
    (run ssl n count env sched).counters.active_sessions =
      (run ssl n count env sched).procs.countP Proc.running ∧
    ((run ssl n count env sched).counters.active_sessions = 0 →
      ∀ p ∈ (run ssl n count env sched).procs, p.done.length ≤ 1 ∨ p.todo = []) ∧
    ((run ssl n count env sched).reporterExited = false →
      (step (run ssl n count env sched) Tick.reporter).reporterExited = true →
      ∀ p ∈ (run ssl n count env sched).procs, p.done.length ≤ 1 ∨ p.todo = []) := by
  have hinv := run_inv ssl n count env sched
  obtain ⟨s1, s2, _, _, s5⟩ := inv_sums ssl n count env _ hinv
  have hA := hinv.2 Counter.active_sessions
  simp only [Counters.get] at hA
  have h1 : (run ssl n count env sched).counters.active_sessions =
      (run ssl n count env sched).procs.countP Proc.running := by
    rw [hA]; omega
  have h2 : (run ssl n count env sched).counters.active_sessions = 0 →
      ∀ p ∈ (run ssl n count env sched).procs, p.done.length ≤ 1 ∨ p.todo = [] := by
    intro h0 p hp
    rw [h1, List.countP_eq_zero] at h0
    have hr := h0 p hp
    by_contra hc
    apply hr
    rw [running_iff]
    constructor
    · by_contra hl
      exact hc (Or.inl (by omega))
    · intro ht
      exact hc (Or.inr ht)
  refine ⟨h1, h2, ?_⟩
  intro hrun hexit
  apply h2
  simp only [step, hrun, Bool.false_eq_true, if_false, decide_eq_true_eq] at hexit
  exact hexit

/-- C2 amended, instance: one plain session, stopped after the jitter wait and
the construction of `SessionsCounter`. -/
theorem active_sessions_after_jitter_witness :
    (run false 1 1 (fun _ => slowStart) [Tick.session 0, Tick.session 0]).counters.active_sessions =
      (run false 1 1 (fun _ => slowStart) [Tick.session 0, Tick.session 0]).procs.countP
        Proc.running ∧
    (run false 1 1 (fun _ => slowStart) [Tick.session 0, Tick.session 0]).counters.active_sessions
      = 1 :=
  ⟨(active_sessions_after_jitter false 1 1 (fun _ => slowStart)
      [Tick.session 0, Tick.session 0] (by norm_num)).1, by decide⟩

/-! ## Completed runs -/

theorem stepProc_succ (i : Nat) (p : Proc) (ps : List Proc) :
    stepProc (i + 1) (p :: ps) =
      match stepProc i ps with
      | none => none
      | some (e, ps') => some (e, p :: ps') := rfl

theorem stepProc_at (pre post : List Proc) (p : Proc) :
    stepProc pre.length (pre ++ p :: post) =
      match p.todo with
      | [] => none
      | e :: rest => some (e, pre ++ ⟨p.done ++ [e], rest⟩ :: post) := by
  induction pre with
  | nil =>
    cases h : p.todo <;> simp [stepProc, h]
  | cons q pre ih =>
    rw [List.length_cons, List.cons_append, stepProc_succ, ih]
    cases h : p.todo <;> simp

theorem foldl_replicate_session (todo : List Event) (c : Counters) (pre post : List Proc)
    (done : List Event) (r : Bool) :
    (List.replicate todo.length (Tick.session pre.length)).foldl step
        ⟨c, pre ++ ⟨done, todo⟩ :: post, r⟩ =
      ⟨c.applyAll todo, pre ++ ⟨done ++ todo, []⟩ :: post, r⟩ := by
  induction todo generalizing c done with
  | nil => simp [Counters.applyAll]
  | cons e todo ih =>
    simp only [List.length_cons, List.replicate_succ, List.foldl_cons]
    have h1 : stepProc pre.length (pre ++ ⟨done, e :: todo⟩ :: post) =
        some (e, pre ++ ⟨done ++ [e], todo⟩ :: post) := by
      rw [stepProc_at]
    rw [step_session_some _ _ _ _ h1, ih, applyAll_cons]
    simp

theorem drainFrom_completes (post pre : List Proc) (c : Counters) (r : Bool)
    (hpre : ∀ p ∈ pre, p.todo = []) :
    ((drainFrom pre.length post).foldl step ⟨c, pre ++ post, r⟩).Completed := by
  induction post generalizing pre c with
  | nil =>
    simp only [drainFrom, List.foldl_nil, List.append_nil]
    exact hpre
  | cons p post ih =>
    obtain ⟨done, todo⟩ := p
    simp only [drainFrom, List.foldl_append]
    rw [foldl_replicate_session]
    have e : pre ++ ⟨done ++ todo, []⟩ :: post = (pre ++ [⟨done ++ todo, []⟩]) ++ post := by
      simp
    have e2 : pre.length + 1 = (pre ++ [(⟨done ++ todo, []⟩ : Proc)]).length := by simp
    rw [e, e2]
    apply ih
    intro q hq
    simp only [List.mem_append, List.mem_singleton] at hq
    rcases hq with hq | rfl
    · exact hpre q hq
    · rfl

/-- The sequential schedule brings every run to completion. -/
theorem sequential_completes (ssl : Bool) (n count : Nat) (env : Nat → Outcomes) :
    (run ssl n count env (sequential (spawnSessions ssl n count env))).Completed := by
  have h := drainFrom_completes (spawnSessions ssl n count env) [] Counters.zero false
    (by simp)
  simpa [run, initial, sequential] using h

/-! ## What a whole session does to the session and request counters -/

theorem abortedPacing_append (es fs : List Event) :
    abortedPacing (es ++ fs) = (abortedPacing es || abortedPacing fs) := by
  simp [abortedPacing]

theorem abortedPacing_connectedHead (ssl : Bool) (o : Outcomes) :
    abortedPacing (connectedHead ssl o) = false := by
  cases ssl <;> simp [abortedPacing, connectedHead, Event.isAbortedPacing]

theorem isAbortedPacing_pacing (ms : Nat) (ec : ErrorCode) :
    Event.isAbortedPacing (Event.wait Timer.pacing ms ec) =
      decide (ec = ErrorCode.operation_aborted) := by
  cases ec <;> simp [Event.isAbortedPacing]

/-- The loop contains an aborted pacing wait exactly when it returns without a
failed request. -/
theorem requestLoop_aborted (o : Outcomes) (left i : Nat) :
    (abortedPacing (requestLoop o left i).2 = true →
      (requestLoop o left i).1 = false ∧
      incs Counter.failed_requests (requestLoop o left i).2 = 0) ∧
    (abortedPacing (requestLoop o left i).2 = false →
      (requestLoop o left i).1 = true ∨
      incs Counter.failed_requests (requestLoop o left i).2 = 1) := by
  induction left generalizing i with
  | zero => simp [requestLoop, abortedPacing]
  | succ left ih =>
    rw [requestLoop_succ]
    by_cases hr : (doRequest o i).1 = false
    · rw [if_pos hr]
      rcases doRequest_false o i hr with ⟨_, h2⟩ | ⟨_, _, h2⟩ <;>
        simp [h2, abortedPacing, Event.isAbortedPacing, incs, List.count_cons]
    · rw [if_neg hr]
      obtain ⟨_, _, h2⟩ := doRequest_true o i (by simpa using hr)
      by_cases hp : o.pacing i = ErrorCode.operation_aborted
      · rw [if_pos hp]
        simp [h2, abortedPacing, Event.isAbortedPacing, incs, List.count_cons, hp]
      · rw [if_neg hp]
        obtain ⟨b1, b2⟩ := ih (i + 1)
        have e1 : abortedPacing ((doRequest o i).2 ++
            [Event.wait Timer.pacing (100 + o.pacingRand i % 3000) (o.pacing i)] ++
            (requestLoop o left (i + 1)).2) = abortedPacing (requestLoop o left (i + 1)).2 := by
          rw [abortedPacing_append, abortedPacing_append, h2]
          simp [abortedPacing, Event.isAbortedPacing, isAbortedPacing_pacing, hp]
        have e2 : incs Counter.failed_requests ((doRequest o i).2 ++
            [Event.wait Timer.pacing (100 + o.pacingRand i % 3000) (o.pacing i)] ++
            (requestLoop o left (i + 1)).2) =
            incs Counter.failed_requests (requestLoop o left (i + 1)).2 := by
          rw [incs_append, incs_append, h2]
          simp [incs, List.count_cons]
        simp only [e1, e2]
        exact ⟨b1, b2⟩

/-- When every send and receive succeeds and no pacing wait is aborted, the
request loop runs to its end. -/
theorem requestLoop_all_ok (o : Outcomes) (left i : Nat)
    (h : ∀ j, i ≤ j → j < i + left → o.write j = ErrorCode.success ∧
      o.read j = ErrorCode.success ∧ o.pacing j ≠ ErrorCode.operation_aborted) :
    (requestLoop o left i).1 = true := by
  induction left generalizing i with
  | zero => rfl
  | succ left ih =>
    obtain ⟨hw, hrd, hp⟩ := h i (le_refl _) (by omega)
    have hr : (doRequest o i).1 = true := by
      unfold doRequest
      simp [hw, hrd]
    rw [requestLoop_succ, if_neg (by simp [hr]), if_neg hp]
    exact ih (i + 1) (fun j h1 h2 => h j (by omega) (by omega))

/-- The session and request counters over a whole session: no decrement;
every request attempt increments exactly one of `success_requests` and
`failed_requests`, and there are at most `n` attempts; at most one increment
of `success_sessions` or `failed_sessions`, and exactly one unless the SNI
host name is refused or a pacing wait is aborted. -/
theorem session_totals (ssl : Bool) (n : Nat) (o : Outcomes) :
    (∀ k, k ≠ Counter.active_sessions → k ≠ Counter.connected_sessions →
      decs k (session ssl n o) = 0) ∧
    incs Counter.success_requests (session ssl n o) +
      incs Counter.failed_requests (session ssl n o) = attempts (session ssl n o) ∧
    attempts (session ssl n o) ≤ n ∧
    incs Counter.success_sessions (session ssl n o) +
      incs Counter.failed_sessions (session ssl n o) ≤ 1 ∧
    ((ssl = true → o.sni = true) →
      incs Counter.success_sessions (session ssl n o) +
        incs Counter.failed_sessions (session ssl n o) =
          if abortedPacing (session ssl n o) = true then 0 else 1) := by
  obtain ⟨_, _, a3, a4, a5, a6, a7, a8, a9, _⟩ := requestLoop_counts o n 0
  obtain ⟨g1, g2⟩ := requestLoop_aborted o n 0
  rcases session_cases ssl n o with ⟨hs, hn, e⟩ | ⟨_, _, e⟩ | ⟨_, _, _, _, e⟩ | ⟨hf, e⟩ |
    ⟨hf, e⟩
  · rw [e]
    refine ⟨?_, ?_, ?_, ?_, ?_⟩
    · intro k h1 h2
      cases k <;> simp [decs, List.count_cons] at h1 h2 ⊢
    · simp [incs, attempts, List.count_cons, Event.isWrite]
    · simp [attempts, Event.isWrite]
    · simp [incs, List.count_cons]
    · intro h
      rw [h hs] at hn
      exact Bool.noConfusion hn
  · rw [e]
    refine ⟨?_, ?_, ?_, ?_, ?_⟩
    · intro k h1 h2
      cases ssl <;> cases k <;> simp [decs, List.count_cons] at h1 h2 ⊢
    · cases ssl <;> simp [incs, attempts, List.count_cons, Event.isWrite]
    · cases ssl <;> simp [attempts, Event.isWrite]
    · cases ssl <;> simp [incs, List.count_cons]
    · intro _
      cases ssl <;> simp [incs, List.count_cons, abortedPacing, Event.isAbortedPacing]
  · rw [e]
    refine ⟨?_, ?_, ?_, ?_, ?_⟩
    · intro k h1 h2
      cases k <;> simp [decs, List.count_cons] at h1 h2 ⊢
    · simp [incs, attempts, List.count_cons, Event.isWrite]
    · simp [attempts, Event.isWrite]
    · simp [incs, List.count_cons]
    · intro _
      simp [incs, List.count_cons, abortedPacing, Event.isAbortedPacing]
  · have p := returned_counts ssl o _ _ e
    have hab : abortedPacing (session ssl n o) = abortedPacing (requestLoop o n 0).2 := by
      rw [e, abortedPacing_append, abortedPacing_append, abortedPacing_connectedHead]
      simp [abortedPacing, Event.isAbortedPacing]
    have p3 := (p Counter.success_sessions).1
    have p4 := (p Counter.failed_sessions).1
    have p5 := (p Counter.success_requests).1
    have p6 := (p Counter.failed_requests).1
    simp only [reduceCtorEq, or_false, false_or, or_self, if_false] at p3 p4 p5 p6
    refine ⟨?_, ?_, ?_, ?_, ?_⟩
    · intro k h1 h2
      rw [(p k).2.1, a4 k]
      simp [h1, h2]
    · rw [p5, p6, (p Counter.active_sessions).2.2.1]; omega
    · rw [(p Counter.active_sessions).2.2.1]; exact a6
    · rw [p3, p4, a3, a7]; omega
    · intro _
      rw [p3, p4, a3, a7, hab]
      by_cases hb : abortedPacing (requestLoop o n 0).2 = true
      · rw [if_pos hb, (g1 hb).2]
      · have hb' : abortedPacing (requestLoop o n 0).2 = false := by simpa using hb
        rw [if_neg hb]
        rcases g2 hb' with ht | h1
        · rw [hf] at ht
          exact Bool.noConfusion ht
        · rw [h1]
  · have p := shutdown_counts ssl o _ _ _ e
    have hab : abortedPacing (session ssl n o) = false := by
      have hl : abortedPacing (requestLoop o n 0).2 = false := by
        by_contra hb
        have hb' : abortedPacing (requestLoop o n 0).2 = true := by simpa using hb
        have := (g1 hb').1
        rw [hf] at this
        exact Bool.noConfusion this
      rw [e, abortedPacing_append, abortedPacing_append, abortedPacing_append,
        abortedPacing_append, abortedPacing_connectedHead, hl]
      simp [abortedPacing, Event.isAbortedPacing]
    obtain ⟨b1, _, _⟩ := a9 hf
    have p3 := (p Counter.success_sessions).1
    have p4 := (p Counter.failed_sessions).1
    have p5 := (p Counter.success_requests).1
    have p6 := (p Counter.failed_requests).1
    simp only [reduceCtorEq, or_false, false_or, or_self, if_false] at p3 p4 p5 p6
    refine ⟨?_, ?_, ?_, ?_, ?_⟩
    · intro k h1 h2
      rw [(p k).2.1, a4 k]
      simp [h1, h2]
    · rw [p5, p6, (p Counter.active_sessions).2.2.1]
      by_cases hsf : shutdownFails ssl o.shutdown <;> simp [hsf] <;> omega
    · rw [(p Counter.active_sessions).2.2.1]; exact a6
    · rw [p3, p4, a3, a7, b1]
      by_cases hsf : shutdownFails ssl o.shutdown <;> simp [hsf]
    · intro _
      rw [p3, p4, a3, a7, b1, hab]
      by_cases hsf : shutdownFails ssl o.shutdown <;> simp [hsf]

/-! ## Sums over a completed run -/

theorem range_sum_succ (g : Nat → Nat) (m : Nat) :
    ((List.range (m + 1)).map g).sum = ((List.range m).map g).sum + g m := by
  simp [List.range_succ]

theorem range_sum_le (g : Nat → Nat) (c m : Nat) (h : ∀ i, i < m → g i ≤ c) :
    ((List.range m).map g).sum ≤ m * c := by
  induction m with
  | zero => simp
  | succ m ih =>
    have h1 := ih (fun i hi => h i (by omega))
    have h2 := h m (by omega)
    rw [range_sum_succ, Nat.add_mul]
    omega

theorem range_sum_const (g : Nat → Nat) (c m : Nat) (h : ∀ i, i < m → g i = c) :
    ((List.range m).map g).sum = m * c := by
  induction m with
  | zero => simp
  | succ m ih =>
    have h1 := ih (fun i hi => h i (by omega))
    have h2 := h m (by omega)
    rw [range_sum_succ, Nat.add_mul]
    omega

theorem range_sum_plus (f g : Nat → Nat) (m : Nat) :
    ((List.range m).map (fun i => f i + g i)).sum =
      ((List.range m).map f).sum + ((List.range m).map g).sum := by
  induction m with
  | zero => simp
  | succ m ih =>
    rw [range_sum_succ, range_sum_succ, range_sum_succ, ih]
    omega

theorem range_sum_indicator (g : Nat → Nat) (q : Nat → Bool) (m : Nat)
    (h : ∀ i, i < m → g i = if q i = true then 0 else 1) :
    ((List.range m).map g).sum + (List.range m).countP q = m := by
  induction m with
  | zero => simp
  | succ m ih =>
    have h1 := ih (fun i hi => h i (by omega))
    have h2 := h m (by omega)
    rw [range_sum_succ, List.range_succ, List.countP_append, h2]
    by_cases hq : q m = true
    · simp [hq]; omega
    · simp [hq]; omega

/-- In a completed run every sum over the events performed is the sum over the
whole sessions. -/
theorem completed_total (ssl : Bool) (n count : Nat) (env : Nat → Outcomes) (s : RunState)
    (h : Inv (traces ssl n count env) s) (hc : s.Completed) (f : List Event → Nat) :
    total f s.procs = ((List.range count).map (fun i => f (session ssl n (env i)))).sum := by
  have e1 : s.procs.map (fun p => f p.done) = (s.procs.map Proc.full).map f := by
    rw [List.map_map]
    apply List.map_congr_left
    intro p hp
    simp [Proc.full, hc p hp]
  unfold total
  rw [e1, h.1, traces, List.map_map]
  rfl

/-- The session and request counters are never decremented, so each holds the
number of its increments so far, modulo `2 ^ 32`. -/
theorem inv_monotone_counter (ssl : Bool) (n count : Nat) (env : Nat → Outcomes)
    (s : RunState) (h : Inv (traces ssl n count env) s) (k : Counter)
    (h1 : k ≠ Counter.active_sessions) (h2 : k ≠ Counter.connected_sessions) :
    s.counters.get k = total (incs k) s.procs % 4294967296 := by
  have hz : total (decs k) s.procs = 0 := by
    have := sum_map_le s.procs (fun p => decs k p.done) (fun _ => 0) (fun p hp => by
      obtain ⟨i, _, e⟩ := inv_proc ssl n count env s h p hp
      have := (session_totals ssl n (env i)).1 k h1 h2
      rw [← e, decs_append] at this
      show decs k p.done ≤ 0
      omega)
    rw [sum_map_const] at this
    unfold total
    omega
  rw [h.2 k, hz, Nat.mul_zero, Nat.add_zero]

/-- At every point of a run the sessions have performed at most
`count * n` increments of the two request counters. -/
theorem inv_requests (ssl : Bool) (n count : Nat) (env : Nat → Outcomes)
    (s : RunState) (h : Inv (traces ssl n count env) s) :
    total (incs Counter.success_requests) s.procs +
      total (incs Counter.failed_requests) s.procs ≤ count * n := by
  have := sum_map_le s.procs
    (fun p => incs Counter.success_requests p.done + incs Counter.failed_requests p.done)
    (fun _ => n) (fun p hp => by
      obtain ⟨i, _, e⟩ := inv_proc ssl n count env s h p hp
      obtain ⟨_, t2, t3, _, _⟩ := session_totals ssl n (env i)
      rw [← e] at t2 t3
      rw [incs_append, incs_append] at t2
      show incs Counter.success_requests p.done + incs Counter.failed_requests p.done ≤ n
      omega)
  rw [sum_map_plus, sum_map_const, inv_length ssl n count env s h] at this
  exact this

/-! ## Runs: request counters -/

/-- C10. In every state a run of `count` sessions of `n` requests can reach,
`success_requests + failed_requests <= count * n`, the counter values and the
sum taken as natural numbers; the same bound holds for the number of
increments of the two counters performed so far (the counters without
wrap-around); and over a whole session every request attempt increments
exactly one of the two counters, once, with at most `n` attempts. -/
theorem requests_bounded (ssl : Bool) (n count : Nat) (env : Nat → Outcomes)
    (sched : List Tick) :
    (run ssl n count env sched).counters.success_requests +
      (run ssl n count env sched).counters.failed_requests ≤ count * n ∧
    total (incs Counter.success_requests) (run ssl n count env sched).procs +
      total (incs Counter.failed_requests) (run ssl n count env sched).procs ≤ count * n ∧
    ∀ i, incs Counter.success_requests (session ssl n (env i)) +
        incs Counter.failed_requests (session ssl n (env i)) =
          attempts (session ssl n (env i)) ∧
      attempts (session ssl n (env i)) ≤ n := by
  have hinv := run_inv ssl n count env sched
  have hb := inv_requests ssl n count env _ hinv
  have h1 := inv_monotone_counter ssl n count env _ hinv Counter.success_requests
    (by decide) (by decide)
  have h2 := inv_monotone_counter ssl n count env _ hinv Counter.failed_requests
    (by decide) (by decide)
  simp only [Counters.get] at h1 h2
  refine ⟨?_, hb, ?_⟩
  · rw [h1, h2]
    have := Nat.mod_le (total (incs Counter.success_requests)
      (run ssl n count env sched).procs) 4294967296
    have := Nat.mod_le (total (incs Counter.failed_requests)
      (run ssl n count env sched).procs) 4294967296
    omega
  · intro i
    obtain ⟨_, t2, t3, _, _⟩ := session_totals ssl n (env i)
    exact ⟨t2, t3⟩

/-! ## Runs: every session counted once -/

/-- C1, as stated, fails. One plain session of one request: the request
succeeds and the pacing wait that follows ends with `operation_aborted`, so
the session returns at line 270 without touching `success_sessions` or
`failed_sessions`; the run is complete with their sum at 0, not 1. -/
theorem sessions_accounted_counterexample :
    (run false 1 1 (fun _ => abortedOutcomes)
      (sequential (spawnSessions false 1 1 (fun _ => abortedOutcomes)))).Completed ∧
    (run false 1 1 (fun _ => abortedOutcomes)
      (sequential (spawnSessions false 1 1 (fun _ => abortedOutcomes)))).counters =
        ⟨0, 0, 0, 0, 1, 0⟩ ∧
    (run false 1 1 (fun _ => abortedOutcomes)
      (sequential (spawnSessions false 1 1 (fun _ => abortedOutcomes)))).counters.success_sessions
      + (run false 1 1 (fun _ => abortedOutcomes)
      (sequential (spawnSessions false 1 1 (fun _ => abortedOutcomes)))).counters.failed_sessions
      ≠ 1 ∧
    do_session 1 abortedOutcomes =
      [Event.wait Timer.jitter 0 ErrorCode.success, Event.inc Counter.active_sessions,
       Event.io Op.connect ErrorCode.success, Event.inc Counter.connected_sessions,
       Event.io (Op.write 0) ErrorCode.success, Event.io (Op.read 0) ErrorCode.success,
       Event.inc Counter.success_requests,
       Event.wait Timer.pacing 100 ErrorCode.operation_aborted,
       Event.dec Counter.connected_sessions, Event.dec Counter.active_sessions] := by
  decide

/-- C1, amended. In a completed run of `count` sessions (`count` below
`2 ^ 32`), plain or TLS with the SNI host name accepted, whatever the outcomes
of the transport operations and timers: `success_sessions + failed_sessions`
plus the number of sessions that returned from an aborted pacing wait is
`count`. Every session increments at most one of the two counters, at most
once, and exactly one of them, once, unless it returns from an aborted pacing
wait, in which case it increments neither. -/
theorem sessions_accounted (ssl : Bool) (n count : Nat) (env : Nat → Outcomes)
    (sched : List Tick) (hcount : count < 4294967296)
    (hsni : ssl = true → ∀ i, i < count → (env i).sni = true)
    (hdone : (run ssl n count env sched).Completed) :
    (run ssl n count env sched).counters.success_sessions +
      (run ssl n count env sched).counters.failed_sessions +
      (List.range count).countP (fun i => abortedPacing (session ssl n (env i))) = count ∧
    ∀ i, i < count →
      incs Counter.success_sessions (session ssl n (env i)) +
        incs Counter.failed_sessions (session ssl n (env i)) ≤ 1 ∧
      incs Counter.success_sessions (session ssl n (env i)) +
        incs Counter.failed_sessions (session ssl n (env i)) =
          if abortedPacing (session ssl n (env i)) = true then 0 else 1 := by
  have hinv := run_inv ssl n count env sched
  have h1 := inv_monotone_counter ssl n count env _ hinv Counter.success_sessions
    (by decide) (by decide)
  have h2 := inv_monotone_counter ssl n count env _ hinv Counter.failed_sessions
    (by decide) (by decide)
  simp only [Counters.get] at h1 h2
  have hper : ∀ i, i < count →
      incs Counter.success_sessions (session ssl n (env i)) +
        incs Counter.failed_sessions (session ssl n (env i)) ≤ 1 ∧
      incs Counter.success_sessions (session ssl n (env i)) +
        incs Counter.failed_sessions (session ssl n (env i)) =
          if abortedPacing (session ssl n (env i)) = true then 0 else 1 := by
    intro i hi
    obtain ⟨_, _, _, t4, t5⟩ := session_totals ssl n (env i)
    exact ⟨t4, t5 (fun hs => hsni hs i hi)⟩
  refine ⟨?_, hper⟩
  rw [h1, h2, completed_total ssl n count env _ hinv hdone,
    completed_total ssl n count env _ hinv hdone]
  have hsum := range_sum_indicator
    (fun i => incs Counter.success_sessions (session ssl n (env i)) +
      incs Counter.failed_sessions (session ssl n (env i)))
    (fun i => abortedPacing (session ssl n (env i))) count (fun i hi => (hper i hi).2)
  rw [range_sum_plus] at hsum
  omega

/-- C1 amended, instance: three plain sessions, the middle one returning from
an aborted pacing wait. -/
theorem sessions_accounted_witness :
    (run false 2 3 (fun i => if i = 1 then abortedOutcomes else okOutcomes)
      (sequential (spawnSessions false 2 3
        (fun i => if i = 1 then abortedOutcomes else okOutcomes)))).counters.success_sessions +
    (run false 2 3 (fun i => if i = 1 then abortedOutcomes else okOutcomes)
      (sequential (spawnSessions false 2 3
        (fun i => if i = 1 then abortedOutcomes else okOutcomes)))).counters.failed_sessions +
    (List.range 3).countP (fun i => abortedPacing (session false 2
      ((fun i => if i = 1 then abortedOutcomes else okOutcomes) i))) = 3 ∧
    (List.range 3).countP (fun i => abortedPacing (session false 2
      ((fun i => if i = 1 then abortedOutcomes else okOutcomes) i))) = 1 :=
  ⟨(sessions_accounted false 2 3 (fun i => if i = 1 then abortedOutcomes else okOutcomes)
      (sequential (spawnSessions false 2 3
        (fun i => if i = 1 then abortedOutcomes else okOutcomes)))
      (by norm_num) (fun h => Bool.noConfusion h) (by decide)).1,
   by decide⟩

/-! ## Runs in which every operation succeeds -/

/-- A session in which the SNI host name is accepted, connect, handshake,
every send and receive and the shutdown report no error and no pacing wait is
aborted: one increment of `success_sessions`, none of `failed_sessions`, `n`
of `success_requests`, none of `failed_requests`. -/
theorem session_all_ok (ssl : Bool) (n : Nat) (o : Outcomes)
    (hsni : ssl = true → o.sni = true)
    (hconn : o.connect = ErrorCode.success)
    (hhand : ssl = true → o.handshake = ErrorCode.success)
    (hwrite : ∀ j, j < n → o.write j = ErrorCode.success)
    (hread : ∀ j, j < n → o.read j = ErrorCode.success)
    (hpace : ∀ j, j < n → o.pacing j ≠ ErrorCode.operation_aborted)
    (hshut : o.shutdown = ErrorCode.success) :
    incs Counter.success_sessions (session ssl n o) = 1 ∧
    incs Counter.failed_sessions (session ssl n o) = 0 ∧
    incs Counter.success_requests (session ssl n o) = n ∧
    incs Counter.failed_requests (session ssl n o) = 0 := by
  have hflag : (requestLoop o n 0).1 = true :=
    requestLoop_all_ok o n 0 (fun j _ h2 =>
      ⟨hwrite j (by omega), hread j (by omega), hpace j (by omega)⟩)
  obtain ⟨_, _, a3, _, _, _, a7, _, a9, _⟩ := requestLoop_counts o n 0
  obtain ⟨b1, b2, _⟩ := a9 hflag
  rcases session_cases ssl n o with ⟨hs, hn, _⟩ | ⟨hc, _, _⟩ | ⟨hs, _, _, hh, _⟩ | ⟨hf, _⟩ |
    ⟨_, e⟩
  · rw [hsni hs] at hn
    exact Bool.noConfusion hn
  · exact absurd hconn hc
  · exact absurd (hhand hs) hh
  · rw [hflag] at hf
    exact Bool.noConfusion hf
  · have hsf : ¬ shutdownFails ssl o.shutdown := by
      cases ssl <;> simp [shutdownFails, hshut]
    rw [if_neg hsf] at e
    have p := shutdown_counts ssl o _ _ _ e
    have p3 := (p Counter.success_sessions).1
    have p4 := (p Counter.failed_sessions).1
    have p5 := (p Counter.success_requests).1
    have p6 := (p Counter.failed_requests).1
    simp only [reduceCtorEq, or_false, false_or, or_self, if_false, if_true] at p3 p4 p5 p6
    rw [p3, p4, p5, p6, a3, a7, b1, b2]
    simp

/-- The final counters of a completed run in which every operation succeeds
and no pacing wait is aborted. -/
theorem all_ok_counters (ssl : Bool) (n count : Nat) (env : Nat → Outcomes)
    (sched : List Tick) (hcount : count < 4294967296)
    (hsni : ssl = true → ∀ i, i < count → (env i).sni = true)
    (hconn : ∀ i, i < count → (env i).connect = ErrorCode.success)
    (hhand : ssl = true → ∀ i, i < count → (env i).handshake = ErrorCode.success)
    (hwrite : ∀ i, i < count → ∀ j, j < n → (env i).write j = ErrorCode.success)
    (hread : ∀ i, i < count → ∀ j, j < n → (env i).read j = ErrorCode.success)
    (hpace : ∀ i, i < count → ∀ j, j < n → (env i).pacing j ≠ ErrorCode.operation_aborted)
    (hshut : ∀ i, i < count → (env i).shutdown = ErrorCode.success)
    (hdone : (run ssl n count env sched).Completed) :
    (run ssl n count env sched).counters.success_sessions = count ∧
    (run ssl n count env sched).counters.failed_sessions = 0 ∧
    (run ssl n count env sched).counters.success_requests = (count * n) % 4294967296 ∧
    (run ssl n count env sched).counters.failed_requests = 0 := by
  have hinv := run_inv ssl n count env sched
  have hper : ∀ i, i < count → _ := fun i hi =>
    session_all_ok ssl n (env i) (fun h => hsni h i hi) (hconn i hi) (fun h => hhand h i hi)
      (hwrite i hi) (hread i hi) (hpace i hi) (hshut i hi)
  have h1 := inv_monotone_counter ssl n count env _ hinv Counter.success_sessions
    (by decide) (by decide)
  have h2 := inv_monotone_counter ssl n count env _ hinv Counter.failed_sessions
    (by decide) (by decide)
  have h3 := inv_monotone_counter ssl n count env _ hinv Counter.success_requests
    (by decide) (by decide)
  have h4 := inv_monotone_counter ssl n count env _ hinv Counter.failed_requests
    (by decide) (by decide)
  simp only [Counters.get] at h1 h2 h3 h4
  rw [completed_total ssl n count env _ hinv hdone,
    range_sum_const _ 1 count (fun i hi => (hper i hi).1)] at h1
  rw [completed_total ssl n count env _ hinv hdone,
    range_sum_const _ 0 count (fun i hi => (hper i hi).2.1)] at h2
  rw [completed_total ssl n count env _ hinv hdone,
    range_sum_const _ n count (fun i hi => (hper i hi).2.2.1)] at h3
  rw [completed_total ssl n count env _ hinv hdone,
    range_sum_const _ 0 count (fun i hi => (hper i hi).2.2.2)] at h4
  refine ⟨?_, ?_, h3, ?_⟩
  · rw [h1]; omega
  · rw [h2]; omega
  · rw [h4]; omega

/-- C5, as stated, fails in two ways. (a) One plain session of one request in
which connect, send, receive and shutdown report no error but the pacing wait
is aborted: the run completes with `success_sessions = 0`, not 1. (b) 65536
plain sessions of 65536 requests in which every operation succeeds: the
`uint32_t` counter `success_requests` wraps and ends at 0, not at
`65536 * 65536`. -/
theorem all_ok_run_counterexample :
    (abortedOutcomes.connect = ErrorCode.success ∧
      (∀ j, abortedOutcomes.write j = ErrorCode.success) ∧
      (∀ j, abortedOutcomes.read j = ErrorCode.success) ∧
      abortedOutcomes.shutdown = ErrorCode.success ∧
      (run false 1 1 (fun _ => abortedOutcomes)
        (sequential (spawnSessions false 1 1 (fun _ => abortedOutcomes)))).Completed ∧
      (run false 1 1 (fun _ => abortedOutcomes)
        (sequential (spawnSessions false 1 1
          (fun _ => abortedOutcomes)))).counters.success_sessions = 0) ∧
    ((run false 65536 65536 (fun _ => okOutcomes)
        (sequential (spawnSessions false 65536 65536 (fun _ => okOutcomes)))).Completed ∧
      (run false 65536 65536 (fun _ => okOutcomes)
        (sequential (spawnSessions false 65536 65536
          (fun _ => okOutcomes)))).counters.success_requests = 0 ∧
      (run false 65536 65536 (fun _ => okOutcomes)
        (sequential (spawnSessions false 65536 65536
          (fun _ => okOutcomes)))).counters.success_requests ≠ 65536 * 65536) := by
  have hb := (all_ok_counters false 65536 65536 (fun _ => okOutcomes)
    (sequential (spawnSessions false 65536 65536 (fun _ => okOutcomes)))
    (by norm_num) (fun h => Bool.noConfusion h) (fun _ _ => rfl) (fun h => Bool.noConfusion h)
    (fun _ _ _ _ => rfl) (fun _ _ _ _ => rfl)
    (fun _ _ _ _ h => ErrorCode.noConfusion h) (fun _ _ => rfl)
    (sequential_completes _ _ _ _)).2.2.1
  have hz : (65536 * 65536) % 4294967296 = 0 := by norm_num
  rw [hz] at hb
  refine ⟨⟨rfl, fun _ => rfl, fun _ => rfl, rfl, by decide, by decide⟩,
    ⟨sequential_completes _ _ _ _, hb, ?_⟩⟩
  rw [hb]
  norm_num

/-- C5, amended. In a completed run of `count` sessions (`count` below
`2 ^ 32`) of `n` requests each, `n = 0` included, in which the SNI host name
is accepted, every connect, handshake, send, receive and shutdown reports no
error and no pacing wait is aborted: `success_sessions = count`,
`failed_sessions = 0`, `failed_requests = 0`, and `success_requests` is
`count * n` modulo `2 ^ 32`, which is `count * n` when that is below
`2 ^ 32`. -/
theorem all_ok_run (ssl : Bool) (n count : Nat) (env : Nat → Outcomes)
    (sched : List Tick) (hcount : count < 4294967296)
    (hsni : ssl = true → ∀ i, i < count → (env i).sni = true)
    (hconn : ∀ i, i < count → (env i).connect = ErrorCode.success)
    (hhand : ssl = true → ∀ i, i < count → (env i).handshake = ErrorCode.success)
    (hwrite : ∀ i, i < count → ∀ j, j < n → (env i).write j = ErrorCode.success)
    (hread : ∀ i, i < count → ∀ j, j < n → (env i).read j = ErrorCode.success)
    (hpace : ∀ i, i < count → ∀ j, j < n → (env i).pacing j ≠ ErrorCode.operation_aborted)
    (hshut : ∀ i, i < count → (env i).shutdown = ErrorCode.success)
    (hdone : (run ssl n count env sched).Completed) :
    (run ssl n count env sched).counters.success_sessions = count ∧
    (run ssl n count env sched).counters.failed_sessions = 0 ∧
    (run ssl n count env sched).counters.success_requests = (count * n) % 4294967296 ∧
    (count * n < 4294967296 →
      (run ssl n count env sched).counters.success_requests = count * n) ∧
    (run ssl n count env sched).counters.failed_requests = 0 := by
  obtain ⟨h1, h2, h3, h4⟩ := all_ok_counters ssl n count env sched hcount hsni hconn hhand
    hwrite hread hpace hshut hdone
  exact ⟨h1, h2, h3, fun hlt => by rw [h3, Nat.mod_eq_of_lt hlt], h4⟩

/-- C5 amended, instance (scenario A): one plain session of three requests,
every operation succeeding. -/
theorem all_ok_run_witness :
    (run false 3 1 (fun _ => okOutcomes)
      (sequential (spawnSessions false 3 1 (fun _ => okOutcomes)))).counters.success_sessions
      = 1 ∧
    (run false 3 1 (fun _ => okOutcomes)
      (sequential (spawnSessions false 3 1 (fun _ => okOutcomes)))).counters.failed_sessions
      = 0 ∧
    (run false 3 1 (fun _ => okOutcomes)
      (sequential (spawnSessions false 3 1 (fun _ => okOutcomes)))).counters.success_requests
      = 1 * 3 ∧
    (run false 3 1 (fun _ => okOutcomes)
      (sequential (spawnSessions false 3 1 (fun _ => okOutcomes)))).counters.failed_requests
      = 0 :=
  have h := all_ok_run false 3 1 (fun _ => okOutcomes)
    (sequential (spawnSessions false 3 1 (fun _ => okOutcomes)))
    (by norm_num) (fun h => Bool.noConfusion h) (fun _ _ => rfl) (fun h => Bool.noConfusion h)
    (fun _ _ _ _ => rfl) (fun _ _ _ _ => rfl)
    (fun _ _ _ _ h => ErrorCode.noConfusion h) (fun _ _ => rfl)
    (by decide)
  ⟨h.1, h.2.1, h.2.2.2.1 (by norm_num), h.2.2.2.2⟩

end HttpStress
